import Mathlib

/-!
Verification of the record-store layer of the andst_women_app repository
(`src/db_gsheets.py`, with `src/data_management.py` as its caller).

The Python source is shallowly embedded:
* spreadsheet worksheets become `List (List String)` (row 1 is the header,
  every cell is the string that `gspread`'s `get_all_values` would return);
* Python `str.strip` becomes `pstrip`, Python `int(...)` on strings becomes
  `pyInt?` (an `Option Int`; `none` models the raised `ValueError`), and the
  decimal rendering a numeric cell write produces becomes `intToCell`;
* the session-state fallback store becomes a `List Rec` (records) and an
  association list (targets);
* remote failures (the `except` branches of `db_gsheets.py`) are injected
  through explicit outcome parameters, so every repository operation is a
  total function of its inputs plus the failure oracle.
-/

namespace AndstWomen

/-! ## Python string and integer primitives -/

/-- The whitespace characters Python's `str.strip()` removes
(space, tab, newline, carriage return, vertical tab, form feed). -/
def isSpaceChar (c : Char) : Bool :=
  c = ' ' || c = '\t' || c = '\n' || c = '\r' || c = '\x0b' || c = '\x0c'

/-- Strip leading and trailing whitespace from a character list. -/
def pstripList (cs : List Char) : List Char :=
  ((cs.dropWhile isSpaceChar).reverse.dropWhile isSpaceChar).reverse

/-- Embedding of Python `str.strip()`. -/
def pstrip (s : String) : String :=
  String.mk (pstripList s.toList)

/-- Value of a decimal digit character; `none` for non-digits. -/
def digitVal (c : Char) : Option Nat :=
  if c.isDigit then some (c.toNat - 48) else none

/-- Fold a most-significant-first digit string onto an accumulator. -/
def parseDigitsAux : Nat → List Char → Option Nat
  | acc, [] => some acc
  | acc, c :: cs =>
    match digitVal c with
    | some v => parseDigitsAux (acc * 10 + v) cs
    | none => none

/-- Parse a non-empty all-digit character list as a natural number. -/
def parseNatDigits (cs : List Char) : Option Nat :=
  if cs.isEmpty then none else parseDigitsAux 0 cs

/-- Sign-and-digits integer parse on an already-stripped character list. -/
def pyIntOfChars (cs : List Char) : Option Int :=
  if cs.headD ' ' = '-' then (parseNatDigits cs.tail).map (fun n => -(n : Int))
  else if cs.headD ' ' = '+' then (parseNatDigits cs.tail).map (fun n => (n : Int))
  else (parseNatDigits cs).map (fun n => (n : Int))

/-- Embedding of Python `int(s)` for a string argument: surrounding
whitespace is ignored, an optional single sign precedes the digits,
and anything else raises (`none`). -/
def pyInt? (s : String) : Option Int :=
  pyIntOfChars (pstripList s.toList)

/-- Decimal digits of `n`, most significant first, in front of `acc`.
The first argument is recursion fuel; any fuel `≥ n` gives the value. -/
def natReprAux : Nat → Nat → List Char → List Char
  | 0, n, acc => Char.ofNat (48 + n % 10) :: acc
  | fuel + 1, n, acc =>
    if n < 10 then Char.ofNat (48 + n % 10) :: acc
    else natReprAux fuel (n / 10) (Char.ofNat (48 + n % 10) :: acc)

/-- Decimal digit string of a natural number (`str(n)` in Python). -/
def natReprChars (n : Nat) : List Char :=
  natReprAux n n []

/-- The cell content produced by writing the integer `i` to a sheet cell
and reading it back as a string: Python's `str(i)`. -/
def intToCell (i : Int) : String :=
  if i < 0 then String.mk ('-' :: natReprChars i.natAbs) else String.mk (natReprChars i.toNat)

theorem toList_mk (cs : List Char) : (String.mk cs).toList = cs := rfl

theorem natReprAux_acc (fuel : Nat) : ∀ (n : Nat) (acc : List Char),
    natReprAux fuel n acc = natReprAux fuel n [] ++ acc := by
  induction fuel with
  | zero => intro n acc; simp [natReprAux]
  | succ fuel ih =>
    intro n acc
    by_cases h : n < 10
    · simp [natReprAux, h]
    · simp only [natReprAux, if_neg h]
      rw [ih (n / 10) (Char.ofNat (48 + n % 10) :: acc),
          ih (n / 10) [Char.ofNat (48 + n % 10)]]
      simp

theorem natReprAux_fuel (f1 : Nat) : ∀ (f2 n : Nat) (acc : List Char),
    n ≤ f1 → n ≤ f2 → natReprAux f1 n acc = natReprAux f2 n acc := by
  induction f1 with
  | zero =>
    intro f2 n acc h1 _
    interval_cases n
    cases f2 with
    | zero => rfl
    | succ f2 => simp [natReprAux]
  | succ f1 ih =>
    intro f2 n acc h1 h2
    by_cases h : n < 10
    · cases f2 with
      | zero =>
        interval_cases n
        simp [natReprAux]
      | succ f2 => simp [natReprAux, h]
    · have h10 : 10 ≤ n := by omega
      cases f2 with
      | zero => omega
      | succ f2 =>
        simp only [natReprAux, if_neg h]
        have hdiv : n / 10 < n := Nat.div_lt_self (by omega) (by norm_num)
        exact ih f2 (n / 10) _ (by omega) (by omega)

theorem natReprChars_lt (n : Nat) (h : n < 10) :
    natReprChars n = [Char.ofNat (48 + n)] := by
  have hmod : n % 10 = n := Nat.mod_eq_of_lt h
  cases n with
  | zero => simp [natReprChars, natReprAux]
  | succ k => simp [natReprChars, natReprAux, h, hmod]

theorem natReprChars_ge (n : Nat) (h : 10 ≤ n) :
    natReprChars n = natReprChars (n / 10) ++ [Char.ofNat (48 + n % 10)] := by
  obtain ⟨f, rfl⟩ : ∃ f, n = f + 1 := ⟨n - 1, by omega⟩
  show natReprAux (f + 1) (f + 1) [] = _
  rw [natReprAux]
  rw [if_neg (by omega)]
  have hdiv : (f + 1) / 10 < f + 1 := Nat.div_lt_self (by omega) (by norm_num)
  rw [natReprAux_fuel f ((f + 1) / 10) ((f + 1) / 10) _ (by omega) le_rfl]
  rw [natReprAux_acc]
  rfl

theorem natReprChars_ne_nil (n : Nat) : natReprChars n ≠ [] := by
  by_cases h : n < 10
  · rw [natReprChars_lt n h]; simp
  · rw [natReprChars_ge n (by omega)]; simp

theorem digitVal_ofNat (k : Nat) (h : k < 10) :
    digitVal (Char.ofNat (48 + k)) = some k := by
  interval_cases k <;> decide

theorem isDigit_natReprChars (n : Nat) : ∀ c ∈ natReprChars n, c.isDigit = true := by
  induction n using Nat.strong_induction_on with
  | _ n ih =>
    by_cases h : n < 10
    · rw [natReprChars_lt n h]
      intro c hc
      simp only [List.mem_singleton] at hc
      subst hc
      interval_cases n <;> decide
    · rw [natReprChars_ge n (by omega)]
      intro c hc
      rcases List.mem_append.mp hc with h1 | h2
      · exact ih (n / 10) (Nat.div_lt_self (by omega) (by norm_num)) c h1
      · simp only [List.mem_singleton] at h2
        subst h2
        have hk : n % 10 < 10 := Nat.mod_lt _ (by norm_num)
        generalize n % 10 = k at hk ⊢
        interval_cases k <;> decide

theorem isSpaceChar_of_isDigit (c : Char) (h : c.isDigit = true) :
    isSpaceChar c = false := by
  simp only [isSpaceChar, Bool.or_eq_false_iff, decide_eq_false_iff_not]
  refine ⟨⟨⟨⟨⟨?_, ?_⟩, ?_⟩, ?_⟩, ?_⟩, ?_⟩ <;> rintro rfl <;> exact absurd h (by decide)

theorem dropWhile_eq_self_of_none {p : Char → Bool} {cs : List Char}
    (h : ∀ c ∈ cs, p c = false) : cs.dropWhile p = cs := by
  cases cs with
  | nil => rfl
  | cons c t => simp [List.dropWhile, h c (by simp)]

theorem pstripList_eq_self {cs : List Char}
    (h : ∀ c ∈ cs, isSpaceChar c = false) : pstripList cs = cs := by
  unfold pstripList
  rw [dropWhile_eq_self_of_none h]
  rw [dropWhile_eq_self_of_none (by intro c hc; exact h c (List.mem_reverse.mp hc))]
  exact List.reverse_reverse cs

theorem pstrip_intToCell (i : Int) : pstrip (intToCell i) = intToCell i := by
  unfold intToCell
  by_cases h : i < 0
  · rw [if_pos h]
    unfold pstrip
    rw [toList_mk, pstripList_eq_self]
    intro c hc
    rcases List.mem_cons.mp hc with rfl | hmem
    · decide
    · exact isSpaceChar_of_isDigit c (isDigit_natReprChars _ c hmem)
  · rw [if_neg h]
    unfold pstrip
    rw [toList_mk, pstripList_eq_self]
    intro c hc
    exact isSpaceChar_of_isDigit c (isDigit_natReprChars _ c hc)

theorem intToCell_ne_empty (i : Int) : intToCell i ≠ "" := by
  unfold intToCell
  by_cases h : i < 0
  · rw [if_pos h]
    intro hcontra
    have : ('-' :: natReprChars i.natAbs) = [] := congrArg String.toList hcontra
    simp at this
  · rw [if_neg h]
    intro hcontra
    have : natReprChars i.toNat = [] := congrArg String.toList hcontra
    exact natReprChars_ne_nil _ this

theorem parseDigitsAux_append (xs : List Char) : ∀ (a : Nat) (ys : List Char),
    parseDigitsAux a (xs ++ ys) =
      (parseDigitsAux a xs).bind (fun b => parseDigitsAux b ys) := by
  induction xs with
  | nil => intro a ys; simp [parseDigitsAux]
  | cons c t ih =>
    intro a ys
    simp only [List.cons_append, parseDigitsAux]
    cases digitVal c with
    | none => rfl
    | some v => exact ih (a * 10 + v) ys

theorem parseDigitsAux_repr (n : Nat) : ∀ a : Nat,
    parseDigitsAux a (natReprChars n) =
      some (a * 10 ^ (natReprChars n).length + n) := by
  induction n using Nat.strong_induction_on with
  | _ n ih =>
    intro a
    by_cases h : n < 10
    · rw [natReprChars_lt n h]
      simp only [parseDigitsAux, digitVal_ofNat n h, List.length_singleton]
      norm_num
    · rw [natReprChars_ge n (by omega)]
      rw [parseDigitsAux_append]
      have hdiv : n / 10 < n := Nat.div_lt_self (by omega) (by norm_num)
      rw [ih (n / 10) hdiv a]
      have hk : n % 10 < 10 := Nat.mod_lt _ (by norm_num)
      simp only [Option.some_bind, parseDigitsAux, digitVal_ofNat (n % 10) hk,
        List.length_append, List.length_singleton]
      congr 1
      rw [pow_succ, Nat.add_mul, ← Nat.mul_assoc]
      omega

theorem parseNatDigits_repr (n : Nat) : parseNatDigits (natReprChars n) = some n := by
  unfold parseNatDigits
  rw [if_neg (by simp [List.isEmpty_iff, natReprChars_ne_nil n])]
  rw [parseDigitsAux_repr n 0]
  simp

theorem pyIntOfChars_digits (n : Nat) :
    pyIntOfChars (natReprChars n) = some (n : Int) := by
  obtain ⟨c, t, hct⟩ : ∃ c t, natReprChars n = c :: t := by
    cases hnr : natReprChars n with
    | nil => exact absurd hnr (natReprChars_ne_nil _)
    | cons c t => exact ⟨c, t, rfl⟩
  have hc : c.isDigit = true := isDigit_natReprChars _ c (by rw [hct]; simp)
  have hcm : c ≠ '-' := by intro hcontra; subst hcontra; exact absurd hc (by decide)
  have hcp : c ≠ '+' := by intro hcontra; subst hcontra; exact absurd hc (by decide)
  unfold pyIntOfChars
  rw [hct, List.headD_cons, if_neg hcm, if_neg hcp, ← hct, parseNatDigits_repr]
  rfl

theorem pyInt?_intToCell (i : Int) : pyInt? (intToCell i) = some i := by
  unfold pyInt? intToCell
  by_cases h : i < 0
  · rw [if_pos h]
    have hstrip : pstripList (String.mk ('-' :: natReprChars i.natAbs)).toList
        = '-' :: natReprChars i.natAbs := by
      rw [toList_mk]
      apply pstripList_eq_self
      intro c hc
      rcases List.mem_cons.mp hc with rfl | hmem
      · decide
      · exact isSpaceChar_of_isDigit c (isDigit_natReprChars _ c hmem)
    rw [hstrip]
    unfold pyIntOfChars
    rw [List.headD_cons, if_pos rfl, List.tail_cons, parseNatDigits_repr]
    have habs : -((i.natAbs : Int)) = i := by omega
    simp [habs, abs_of_neg h]
  · rw [if_neg h]
    have hstrip : pstripList (String.mk (natReprChars i.toNat)).toList
        = natReprChars i.toNat := by
      rw [toList_mk]
      apply pstripList_eq_self
      intro c hc
      exact isSpaceChar_of_isDigit c (isDigit_natReprChars _ c hc)
    rw [hstrip, pyIntOfChars_digits]
    congr 1
    omega

/-! ## Dates and ISO-8601 week numbers

`_iso_week_of` (db_gsheets.py lines 260-265) parses the date string with
`datetime.strptime(date_str, "%Y-%m-%d")` and returns
`dt.isocalendar().week`, or `0` when anything raises.  The embedding
implements the proleptic-Gregorian ISO-8601 week computation that
`date.isocalendar()` performs. -/

def splitAux (sep : Char) : List Char → List Char → List (List Char)
  | [], acc => [acc.reverse]
  | c :: cs, acc =>
    if c = sep then acc.reverse :: splitAux sep cs [] else splitAux sep cs (c :: acc)

/-- Split a string into the character runs between dashes. -/
def splitOnDash (s : String) : List (List Char) :=
  splitAux '-' s.toList []

def isLeap (y : Nat) : Bool :=
  (y % 4 = 0 && y % 100 != 0) || y % 400 = 0

/-- Number of days in the months before month `m`. -/
def monthOffset (leap : Bool) (m : Nat) : Nat :=
  (match m with
   | 1 => 0 | 2 => 31 | 3 => 59 | 4 => 90 | 5 => 120 | 6 => 151
   | 7 => 181 | 8 => 212 | 9 => 243 | 10 => 273 | 11 => 304 | _ => 334)
  + (if leap && m ≥ 3 then 1 else 0)

def daysInMonth (leap : Bool) (m : Nat) : Nat :=
  match m with
  | 1 => 31 | 2 => if leap then 29 else 28 | 3 => 31 | 4 => 30 | 5 => 31 | 6 => 30
  | 7 => 31 | 8 => 31 | 9 => 30 | 10 => 31 | 11 => 30 | 12 => 31 | _ => 0

/-- One-based day of the year. -/
def dayOfYear (y m d : Nat) : Nat :=
  monthOffset (isLeap y) m + d

/-- Proleptic-Gregorian day number (0001-01-01 is day 1). -/
def rataDie (y m d : Nat) : Nat :=
  let g := y - 1
  365 * g + g / 4 + g / 400 + dayOfYear y m d - g / 100

/-- ISO weekday: 1 = Monday … 7 = Sunday. -/
def isoWeekday (y m d : Nat) : Nat :=
  (rataDie y m d - 1) % 7 + 1

def pfun (y : Nat) : Nat :=
  (y + y / 4 + y / 400 - y / 100) % 7

/-- 52 or 53, the number of ISO weeks in year `y`. -/
def isoWeeksInYear (y : Nat) : Nat :=
  52 + (if pfun y = 4 ∨ pfun (y - 1) = 3 then 1 else 0)

/-- ISO-8601 week number of a (valid) Gregorian date, as computed by
Python's `date.isocalendar().week`. -/
def isoWeek (y m d : Nat) : Nat :=
  if (dayOfYear y m d + 10 - isoWeekday y m d) / 7 = 0 then isoWeeksInYear (y - 1)
  else if (dayOfYear y m d + 10 - isoWeekday y m d) / 7 > isoWeeksInYear y then 1
  else (dayOfYear y m d + 10 - isoWeekday y m d) / 7

/-- Embedding of `datetime.strptime(s, "%Y-%m-%d").date()`: exactly three
dash-separated fields, the year exactly four digits, month and day one or
two digits, and the values a valid proleptic-Gregorian date with year ≥ 1. -/
def parseDate (s : String) : Option (Nat × Nat × Nat) :=
  match splitOnDash s with
  | [ys, ms, ds] =>
    if ys.length = 4 ∧ ys.all Char.isDigit
        ∧ 1 ≤ ms.length ∧ ms.length ≤ 2 ∧ ms.all Char.isDigit
        ∧ 1 ≤ ds.length ∧ ds.length ≤ 2 ∧ ds.all Char.isDigit then
      match parseDigitsAux 0 ys, parseDigitsAux 0 ms, parseDigitsAux 0 ds with
      | some y, some m, some d =>
        if 1 ≤ y ∧ 1 ≤ m ∧ m ≤ 12 ∧ 1 ≤ d ∧ d ≤ daysInMonth (isLeap y) m then
          some (y, m, d)
        else none
      | _, _, _ => none
    else none
  | _ => none

/-- db_gsheets.py lines 260-265, `_iso_week_of`: ISO week of the parsed
date string, `0` when parsing fails. -/
def iso_week_of (date_str : String) : Int :=
  match parseDate date_str with
  | some (y, m, d) => (isoWeek y m d : Int)
  | none => 0

theorem isoWeeksInYear_bounds (y : Nat) :
    52 ≤ isoWeeksInYear y ∧ isoWeeksInYear y ≤ 53 := by
  unfold isoWeeksInYear
  split <;> omega

theorem isoWeek_bounds (y m d : Nat) :
    1 ≤ isoWeek y m d ∧ isoWeek y m d ≤ 53 := by
  unfold isoWeek
  have h1 := isoWeeksInYear_bounds (y - 1)
  have h2 := isoWeeksInYear_bounds y
  split_ifs <;> omega

example : isoWeek 2024 12 30 = 1 := by decide
example : isoWeek 2024 12 29 = 52 := by decide
example : isoWeek 2020 12 31 = 53 := by decide
example : isoWeek 2025 1 10 = 2 := by decide
example : iso_week_of "2024-12-30" = 1 := by decide
example : iso_week_of "not a date" = 0 := by decide
example : iso_week_of "2025-02-30" = 0 := by decide

/-! ## Schema constants and the record type -/

def RECORDS_HEADER : List String := ["date", "week", "name", "type", "count"]

def TARGETS_HEADER : List String := ["month", "category", "target"]

/-- One parsed record, as the dicts produced by `load_all_records` and
stored in the `_local_records` fallback list. -/
structure Rec where
  date : String
  week : Int
  name : String
  type : String
  count : Int
deriving DecidableEq

/-! ## The local fallback store -/

/-- db_gsheets.py lines 362-373, `insert_or_update_record_local` (the inline
fallback at lines 277-289 is the same code): add `count` onto the first
row with the same `(date, name, type)` key, else append a new row. -/
def insert_or_update_record_local (recs : List Rec) (date_str name typ : String)
    (count : Int) (week_num : Int) : List Rec :=
  match recs with
  | [] => [⟨date_str, week_num, name, typ, count⟩]
  | r :: rest =>
    if r.date = date_str ∧ r.name = name ∧ r.type = typ then
      { r with count := r.count + count } :: rest
    else
      r :: insert_or_update_record_local rest date_str name typ count week_num

/-- The `_local_targets` session dict, as an association list keyed by
`(month, category)` with at most one entry per key. -/
abbrev LocalTargets := List ((String × String) × Int)

/-- The fallback branch of `set_target`: `local[(month, category)] = int(target)`. -/
def set_target_local (l : LocalTargets) (month category : String) (target : Int) : LocalTargets :=
  match l with
  | [] => [((month, category), target)]
  | e :: rest =>
    if e.1 = (month, category) then ((month, category), target) :: rest
    else e :: set_target_local rest month category target

/-- The fallback branch of `get_target`: `local.get((month, category), 0)`. -/
def get_target_local (l : LocalTargets) (month category : String) : Int :=
  match l with
  | [] => 0
  | e :: rest => if e.1 = (month, category) then e.2 else get_target_local rest month category

/-! ## The spreadsheet model

A worksheet is its `get_all_values` result: a list of rows of cell strings,
row 1 being the header. -/

abbrev Sheet := List (List String)

/-- `header.index(k) if k in header else -1` (lines 225, 302, 443-445). -/
def idxOf (header : List String) (k : String) : Int :=
  if k ∈ header then (header.indexOf k : Int) else -1

/-- Python `r[i]` with Python's negative indexing; `none` models `IndexError`. -/
def pyGet? (r : List String) (i : Int) : Option String :=
  if 0 ≤ i then
    if i.toNat < r.length then some (r.getD i.toNat "") else none
  else
    if i.natAbs ≤ r.length then some (r.getD (r.length - i.natAbs) "") else none

/-- The guarded stripped cell read
`r[idx].strip() if idx >= 0 and idx < len(r) else dflt` (lines 230-233). -/
def cellStr (r : List String) (i : Int) (dflt : String) : String :=
  if 0 ≤ i ∧ i.toNat < r.length then pstrip (r.getD i.toNat "") else dflt

/-- The key-match test of the scan at lines 306-313: each of the three key
cells must exist and its stripped value equal the argument. -/
def rowMatchesKey (idxd idxn idxt : Int) (d n t : String) (r : List String) : Bool :=
  decide ((0 ≤ idxd ∧ idxd.toNat < r.length ∧ pstrip (r.getD idxd.toNat "") = d)
    ∧ (0 ≤ idxn ∧ idxn.toNat < r.length ∧ pstrip (r.getD idxn.toNat "") = n)
    ∧ (0 ≤ idxt ∧ idxt.toNat < r.length ∧ pstrip (r.getD idxt.toNat "") = t))

/-- The key-match test of the target scans at lines 406-410 and 449-455. -/
def tgtRowMatches (idxm idxc : Int) (month category : String) (r : List String) : Bool :=
  decide ((0 ≤ idxm ∧ idxm.toNat < r.length ∧ pstrip (r.getD idxm.toNat "") = month)
    ∧ (0 ≤ idxc ∧ idxc.toNat < r.length ∧ pstrip (r.getD idxc.toNat "") = category))

def padTo (r : List String) (len : Nat) : List String :=
  r ++ List.replicate (len - r.length) ""

/-- gspread `ws.update_cell(row, col, v)`, 1-based coordinates; the grid is
padded with empty cells as needed. -/
def updateCell (s : Sheet) (row col : Nat) (v : String) : Sheet :=
  s.set (row - 1) ((padTo (s.getD (row - 1) []) col).set (col - 1) v)

/-- The guarded assignment `if idx >= 0: row[idx] = v` of lines 337-350;
`none` models the `IndexError` when `idx ≥ len(row)`. -/
def pyListSet? (row : List String) (i : Int) (v : String) : Option (List String) :=
  if 0 ≤ i then
    if i.toNat < row.length then some (row.set i.toNat v) else none
  else some row

/-! ## The backend (spreadsheet) operations -/

/-- db_gsheets.py lines 298-355: the backend branch of
`insert_or_update_record`, applied to the `get_all_values` result.
`none` models an exception raised inside the `try` block (an update on a
missing `count` column, or an `IndexError` while building the append row);
the caller then redirects to the local store. -/
def insert_or_update_record_backend (values : Sheet) (date_str name typ : String)
    (count : Int) (week_num : Int) : Option Sheet :=
  let header := values.headD RECORDS_HEADER
  let idxd := idxOf header "date"
  let idxw := idxOf header "week"
  let idxn := idxOf header "name"
  let idxt := idxOf header "type"
  let idxc := idxOf header "count"
  match (values.drop 1).findIdx? (rowMatchesKey idxd idxn idxt date_str name typ) with
  | some j =>
    let r := (values.drop 1).getD j []
    let oldVal : Int :=
      match pyGet? r idxc with
      | none => 0
      | some s => (pyInt? s).getD 0
    if 0 ≤ idxc then
      let s1 := updateCell values (j + 2) (idxc.toNat + 1) (intToCell (oldVal + count))
      some (if 0 ≤ idxw then updateCell s1 (j + 2) (idxw.toNat + 1) (intToCell week_num) else s1)
    else none
  | none =>
    (pyListSet? ["", "", "", "", ""] idxd date_str).bind fun r1 =>
    (pyListSet? r1 idxw (intToCell week_num)).bind fun r2 =>
    (pyListSet? r2 idxn name).bind fun r3 =>
    (pyListSet? r3 idxt typ).bind fun r4 =>
    (pyListSet? r4 idxc (intToCell count)).map fun r5 =>
    values ++ [r5.take 5]

/-- db_gsheets.py lines 440-467: the backend branch of `set_target`.
`none` models the exception of updating a missing `target` column or an
`IndexError` while building the append row. -/
def set_target_backend (values : Sheet) (month category : String) (target : Int) :
    Option Sheet :=
  let header := values.headD TARGETS_HEADER
  let idxm := idxOf header "month"
  let idxc := idxOf header "category"
  let idxt := idxOf header "target"
  match (values.drop 1).findIdx? (tgtRowMatches idxm idxc month category) with
  | some j =>
    if 0 ≤ idxt then some (updateCell values (j + 2) (idxt.toNat + 1) (intToCell target))
    else none
  | none =>
    (pyListSet? ["", "", ""] idxm month).bind fun r1 =>
    (pyListSet? r1 idxc category).bind fun r2 =>
    (pyListSet? r2 idxt (intToCell target)).map fun r3 =>
    values ++ [r3.take 3]

/-- db_gsheets.py lines 396-415: the backend branch of `get_target`:
empty table gives 0, else scan for the first `(month, category)` match and
return its parsed `target` cell, 0 on any parse or range failure. -/
def get_target_backend (values : Sheet) (month category : String) : Int :=
  if values.length ≤ 1 then 0
  else
    let header := (values.headD []).map pstrip
    let idxm := idxOf header "month"
    let idxc := idxOf header "category"
    let idxt := idxOf header "target"
    match (values.drop 1).findIdx? (tgtRowMatches idxm idxc month category) with
    | some j =>
      let r := (values.drop 1).getD j []
      if 0 ≤ idxt ∧ idxt.toNat < r.length then (pyInt? (r.getD idxt.toNat "")).getD 0 else 0
    | none => 0

/-- db_gsheets.py lines 219-257: the row-parsing part of `load_all_records`
applied to the `get_all_values` result.  The header row is skipped, cells
are read through the positional guards, `count` parses with default 0,
`week` is recomputed from `date` when the stored cell is absent, blank or
unparsable, and a row with a blank `date`, `name` or `type` is dropped. -/
def parse_records (values : Sheet) : List Rec :=
  if values.length ≤ 1 then []
  else
    let header := (values.headD []).map pstrip
    let idxd := idxOf header "date"
    let idxw := idxOf header "week"
    let idxn := idxOf header "name"
    let idxt := idxOf header "type"
    let idxc := idxOf header "count"
    (values.drop 1).filterMap fun r =>
      let d := cellStr r idxd ""
      let nm := cellStr r idxn ""
      let tp := cellStr r idxt ""
      let cnt := (pyInt? (cellStr r idxc "0")).getD 0
      let wk : Int :=
        if 0 ≤ idxw ∧ idxw.toNat < r.length ∧ pstrip (r.getD idxw.toNat "") ≠ "" then
          (pyInt? (r.getD idxw.toNat "")).getD (iso_week_of d)
        else iso_week_of d
      if d = "" ∨ nm = "" ∨ tp = "" then none
      else some ⟨d, wk, nm, tp, cnt⟩

/-! ## The worksheet provisioner's header repair

db_gsheets.py lines 119-143 (`_ensure_worksheet` on an existing worksheet):
read row 1, strip and stringify its cells, compare the first
`len(header)` of them with the canonical header, and overwrite
`A1:<end>1` (end column computed from the header length, capped at 26
columns) when they differ.  The model returns whether a write happened
and the resulting first row. -/
def ensure_header (firstRow : List String) (header : List String) : Bool × List String :=
  if (firstRow.map pstrip).take header.length ≠ header then
    (true, header ++ firstRow.drop header.length)
  else (false, firstRow)

/-! ## Repository operations over the failure oracle

Each public repository function in db_gsheets.py consists of a backend
attempt wrapped in broad `except` handlers that redirect to the local
store.  The possible fates of the remote part are injected explicitly:

* `unavailable` — `_backend_available` is false, or `_client_and_book`
  returned `(None, None)`;
* `wsNone` — `_ensure_worksheet` returned `None` (unusable worksheet);
* `readFail` — `ws.get_all_values()` raised;
* `writeFail` — a write call (`update_cell` / `append_row` / `update`)
  raised; the remote sheet is left as it was (no claim observes the
  remote state after a failed write);
* `ok` — every remote call succeeded.

The functions below are total: every oracle outcome is handled by the
branch the source's `except` handlers prescribe, which is the shallow
form of "no exception propagates to the caller". -/

inductive ReadOutcome
  | ok
  | unavailable
  | wsNone
  | readFail
deriving DecidableEq

inductive OpOutcome
  | ok
  | unavailable
  | wsNone
  | readFail
  | writeFail
deriving DecidableEq

/-- The whole persistent state seen by the repository layer: the two
worksheets and the two session-state fallback structures. -/
structure StoreState where
  recSheet : Sheet
  tgtSheet : Sheet
  localRecs : List Rec
  localTgts : LocalTargets
deriving DecidableEq

/-- db_gsheets.py lines 195-257, `load_all_records`: the remote parse when
everything succeeds, the local list under every failure. -/
def load_all_records (o : ReadOutcome) (st : StoreState) : List Rec :=
  match o with
  | .ok => parse_records st.recSheet
  | _ => st.localRecs

/-- db_gsheets.py lines 268-359, `insert_or_update_record`: compute the ISO
week, try the backend branch, and on any failure (including an exception
inside the backend branch) run `insert_or_update_record_local` instead. -/
def insert_or_update_record (o : OpOutcome) (st : StoreState)
    (date_str name typ : String) (count : Int) : StoreState :=
  let week_num := iso_week_of date_str
  match o with
  | .ok =>
    match insert_or_update_record_backend st.recSheet date_str name typ count week_num with
    | some s2 => { st with recSheet := s2 }
    | none =>
      { st with localRecs :=
          insert_or_update_record_local st.localRecs date_str name typ count week_num }
  | _ =>
    { st with localRecs :=
        insert_or_update_record_local st.localRecs date_str name typ count week_num }

/-- db_gsheets.py lines 379-419, `get_target`. -/
def get_target (o : ReadOutcome) (st : StoreState) (month category : String) : Int :=
  match o with
  | .ok => get_target_backend st.tgtSheet month category
  | _ => get_target_local st.localTgts month category

/-- db_gsheets.py lines 422-473, `set_target`. -/
def set_target (o : OpOutcome) (st : StoreState) (month category : String)
    (target : Int) : StoreState :=
  match o with
  | .ok =>
    match set_target_backend st.tgtSheet month category target with
    | some s2 => { st with tgtSheet := s2 }
    | none => { st with localTgts := set_target_local st.localTgts month category target }
  | _ => { st with localTgts := set_target_local st.localTgts month category target }

/-! ## The single-attempt remote read of `load_all_records`

For claim C4 the remote read is exposed against an attempt-indexed oracle:
`attempts k` is what the `(k+1)`-th call of `ws.get_all_values()` would
return if it were made.  db_gsheets.py lines 213-217 make exactly one
call, inside one catch-all `try`, so only `attempts 0` is consulted. -/

inductive RemoteErr
  | status (code : Nat)
  | noStatus
deriving DecidableEq

/-- The transient classification claimed by the spec (§4.3): HTTP 429,
any 5xx, or an error with no discernible status. -/
def transientErr (e : RemoteErr) : Bool :=
  match e with
  | .status c => decide (c = 429 ∨ (500 ≤ c ∧ c < 600))
  | .noStatus => true

inductive Attempt
  | ok (values : Sheet)
  | raised (e : RemoteErr)
deriving DecidableEq

/-- db_gsheets.py lines 213-257: the remote-read portion of
`load_all_records` run against the attempt oracle.  The code calls
`get_all_values` once; if that call raises — whatever the error's status —
it returns the local list. -/
def load_records_from_remote (attempts : Nat → Attempt) (locals : List Rec) : List Rec :=
  match attempts 0 with
  | .ok values => parse_records values
  | .raised _ => locals

/-! ## `delete_record`

`data_management.py` imports `delete_record` from `db_gsheets`, but the
source of `db_gsheets.py` does not define it. -/

/-- Modelled from the spec: `delete_record(date, name, type) -> bool` is
absent from src/db_gsheets.py (only its caller in src/data_management.py
exists).  Spec §4.4: it "locates the first matching row", "deletes the row
if still matching" and "returns whether a deletion occurred (false if no
match was ever found)"; the concurrent re-check is the identity in this
sequential model.  The logical table is the list of records. -/
def delete_record (recs : List Rec) (date_str name typ : String) : List Rec × Bool :=
  match recs.findIdx? (fun r => decide (r.date = date_str ∧ r.name = name ∧ r.type = typ)) with
  | some i => (recs.eraseIdx i, true)
  | none => (recs, false)

/-! ## List helper lemmas -/

theorem findIdx?_cons_elim {α : Type} (p : α → Bool) (x : α) (xs : List α) :
    (x :: xs).findIdx? p = if p x then some 0 else (xs.findIdx? p).map (· + 1) := by
  simp [List.findIdx?_cons, List.findIdx?_succ]

theorem findIdx?_none_iff {α : Type} {p : α → Bool} {l : List α} :
    l.findIdx? p = none ↔ ∀ x ∈ l, p x = false := by
  induction l with
  | nil => simp
  | cons x xs ih =>
    rw [findIdx?_cons_elim]
    by_cases hx : p x
    · simp [hx]
    · simp only [hx, if_false, List.mem_cons]
      constructor
      · intro h
        have : xs.findIdx? p = none := by
          cases hh : xs.findIdx? p with
          | none => rfl
          | some j => rw [hh] at h; simp at h
        intro y hy
        rcases hy with rfl | hy
        · simp [hx]
        · exact ih.mp this y hy
      · intro h
        have : xs.findIdx? p = none := ih.mpr (fun y hy => h y (Or.inr hy))
        simp [this]

theorem findIdx?_map_congr {α β : Type} (f : α → β) (p : β → Bool) (q : α → Bool)
    (l : List α) (h : ∀ x ∈ l, p (f x) = q x) :
    (l.map f).findIdx? p = l.findIdx? q := by
  induction l with
  | nil => simp
  | cons x xs ih =>
    rw [List.map_cons, findIdx?_cons_elim, findIdx?_cons_elim,
      h x (by simp), ih (fun y hy => h y (by simp [hy]))]

theorem findIdx?_some_bound {α : Type} {p : α → Bool} {l : List α} {j : Nat}
    (h : l.findIdx? p = some j) : j < l.length := by
  induction l generalizing j with
  | nil => simp at h
  | cons x xs ih =>
    rw [findIdx?_cons_elim] at h
    by_cases hx : p x
    · simp [hx] at h
      simp [List.length_cons]
      omega
    · simp only [hx, if_false] at h
      cases hxs : xs.findIdx? p with
      | none => rw [hxs] at h; simp at h
      | some k =>
        rw [hxs] at h
        simp at h
        have := ih hxs
        simp
        omega

/-! ## Canonical-header index facts -/

theorem idx_rec_date : idxOf RECORDS_HEADER "date" = 0 := by decide

theorem idx_rec_week : idxOf RECORDS_HEADER "week" = 1 := by decide

theorem idx_rec_name : idxOf RECORDS_HEADER "name" = 2 := by decide

theorem idx_rec_type : idxOf RECORDS_HEADER "type" = 3 := by decide

theorem idx_rec_count : idxOf RECORDS_HEADER "count" = 4 := by decide

theorem idx_tgt_month : idxOf TARGETS_HEADER "month" = 0 := by decide

theorem idx_tgt_category : idxOf TARGETS_HEADER "category" = 1 := by decide

theorem idx_tgt_target : idxOf TARGETS_HEADER "target" = 2 := by decide

theorem pstrip_records_header : RECORDS_HEADER.map pstrip = RECORDS_HEADER := by decide

theorem pstrip_targets_header : TARGETS_HEADER.map pstrip = TARGETS_HEADER := by decide

/-! ## Well-formed stored records -/

/-- A string unchanged by `str.strip()`. -/
abbrev stripFixed (s : String) : Prop := pstrip s = s

/-- The three key strings are strip-fixed, and the stored week is the ISO
week of the stored date — the invariant every record written by
`insert_or_update_record` with strip-fixed arguments satisfies. -/
def wellFormedRec (r : Rec) : Prop :=
  stripFixed r.date ∧ stripFixed r.name ∧ stripFixed r.type ∧ r.week = iso_week_of r.date

/-- Non-blank key fields: the shape `load_all_records` keeps. -/
def completeRec (r : Rec) : Prop :=
  r.date ≠ "" ∧ r.name ≠ "" ∧ r.type ≠ ""

/-- The sheet row holding a record, as the backend writes it. -/
def recToRow (r : Rec) : List String :=
  [r.date, intToCell r.week, r.name, r.type, intToCell r.count]

/-- The additive count update of an existing row. -/
def bump (r : Rec) (c : Int) : Rec := { r with count := r.count + c }

/-- The key comparison of the local store (exact string equality). -/
def recKeyMatch (d n t : String) (r : Rec) : Bool :=
  decide (r.date = d ∧ r.name = n ∧ r.type = t)

def defaultRec : Rec := ⟨"", 0, "", "", 0⟩

theorem insert_local_eq_append (recs : List Rec) (d n t : String) (c w : Int)
    (h : recs.findIdx? (recKeyMatch d n t) = none) :
    insert_or_update_record_local recs d n t c w = recs ++ [⟨d, w, n, t, c⟩] := by
  induction recs with
  | nil => rfl
  | cons r rest ih =>
    rw [findIdx?_cons_elim] at h
    unfold insert_or_update_record_local
    by_cases hr : r.date = d ∧ r.name = n ∧ r.type = t
    · exfalso
      have hkm : recKeyMatch d n t r = true := decide_eq_true hr
      rw [hkm, if_pos rfl] at h
      exact Option.some_ne_none 0 h
    · rw [if_neg hr]
      have hkm : recKeyMatch d n t r = false := decide_eq_false hr
      rw [hkm] at h
      have hnone : rest.findIdx? (recKeyMatch d n t) = none := by
        cases hrest : rest.findIdx? (recKeyMatch d n t) with
        | none => rfl
        | some k => rw [hrest] at h; simp at h
      rw [ih hnone]
      simp

theorem insert_local_eq_set (recs : List Rec) (d n t : String) (c w : Int) (j : Nat)
    (h : recs.findIdx? (recKeyMatch d n t) = some j) :
    insert_or_update_record_local recs d n t c w
      = recs.set j (bump (recs.getD j defaultRec) c) := by
  induction recs generalizing j with
  | nil => simp at h
  | cons r rest ih =>
    rw [findIdx?_cons_elim] at h
    unfold insert_or_update_record_local
    by_cases hr : r.date = d ∧ r.name = n ∧ r.type = t
    · have hkm : recKeyMatch d n t r = true := decide_eq_true hr
      rw [hkm, if_pos rfl] at h
      have hj : j = 0 := (Option.some_inj.mp h).symm
      subst hj
      rw [if_pos hr]
      simp [bump, List.getD]
    · rw [if_neg hr]
      have hkm : recKeyMatch d n t r = false := decide_eq_false hr
      rw [hkm] at h
      cases hrest : rest.findIdx? (recKeyMatch d n t) with
      | none => rw [hrest] at h; simp at h
      | some k =>
        rw [hrest] at h
        simp at h
        subst h
        rw [ih k hrest]
        simp [List.getD]

theorem rowMatchesKey_recToRow (d n t : String) (r : Rec)
    (hd : stripFixed r.date) (hn : stripFixed r.name) (ht : stripFixed r.type) :
    rowMatchesKey 0 2 3 d n t (recToRow r) = recKeyMatch d n t r := by
  unfold stripFixed at hd hn ht
  unfold rowMatchesKey recKeyMatch recToRow
  rw [decide_eq_decide]
  have h0 : (0 : Int).toNat = 0 := rfl
  have h2 : (2 : Int).toNat = 2 := rfl
  have h3 : (3 : Int).toNat = 3 := rfl
  simp only [List.getD, h0, h2, h3]
  norm_num [hd, hn, ht]

/-! ## Characterization of `load_all_records` under the canonical header -/

/-- What `load_all_records` does to one raw stored row of a `records`
table whose header is canonical: strip the `date`/`name`/`type` cells and
drop the row if any of them is blank; parse the `count` cell as an
integer, 0 when absent or unparsable; keep the stored `week` cell when it
is present, non-blank and parses, otherwise recompute the ISO week from
the (stripped) date. -/
def canonicalRowParse (r : List String) : Option Rec :=
  if cellStr r 0 "" = "" ∨ cellStr r 2 "" = "" ∨ cellStr r 3 "" = "" then none
  else some
    { date := cellStr r 0 ""
      week :=
        if pstrip (r.getD 1 "") = "" then iso_week_of (cellStr r 0 "")
        else (pyInt? (r.getD 1 "")).getD (iso_week_of (cellStr r 0 ""))
      name := cellStr r 2 ""
      type := cellStr r 3 ""
      count := (pyInt? (cellStr r 4 "0")).getD 0 }

theorem parse_records_canonical (rows : List (List String)) :
    parse_records (RECORDS_HEADER :: rows) = rows.filterMap canonicalRowParse := by
  cases rows with
  | nil => simp [parse_records]
  | cons r0 rest =>
    unfold parse_records
    rw [if_neg (by simp)]
    simp only [List.headD_cons, pstrip_records_header, idx_rec_date, idx_rec_week,
      idx_rec_name, idx_rec_type, idx_rec_count, List.drop_succ_cons, List.drop_zero]
    apply List.filterMap_congr
    intro r _
    unfold canonicalRowParse
    have hwk :
        (if 0 ≤ (1 : Int) ∧ (1 : Int).toNat < r.length ∧ pstrip (r.getD (1 : Int).toNat "") ≠ ""
          then (pyInt? (r.getD (1 : Int).toNat "")).getD (iso_week_of (cellStr r 0 ""))
          else iso_week_of (cellStr r 0 ""))
        = (if pstrip (r.getD 1 "") = "" then iso_week_of (cellStr r 0 "")
          else (pyInt? (r.getD 1 "")).getD (iso_week_of (cellStr r 0 ""))) := by
      by_cases hlen : 1 < r.length
      · by_cases hblank : pstrip (r.getD 1 "") = ""
        · rw [if_neg (by push_neg; intro _ _; simpa using hblank), if_pos hblank]
        · rw [if_pos ⟨by norm_num, by simpa using hlen, by simpa using hblank⟩, if_neg hblank]
          rfl
      · have hget : r.getD 1 "" = "" := by
          apply List.getD_eq_default
          omega
        rw [if_neg (by push_neg; intro _ h; omega), if_pos (by rw [hget]; rfl)]
    rw [hwk]

theorem findIdx?_some_pred {α : Type} {p : α → Bool} {l : List α} {j : Nat}
    (h : l.findIdx? p = some j) (d : α) : p (l.getD j d) = true := by
  induction l generalizing j with
  | nil => simp at h
  | cons x xs ih =>
    rw [findIdx?_cons_elim] at h
    by_cases hx : p x
    · rw [if_pos hx] at h
      have hj : j = 0 := (Option.some_inj.mp h).symm
      subst hj
      simpa [List.getD] using hx
    · rw [if_neg hx] at h
      cases hxs : xs.findIdx? p with
      | none => rw [hxs] at h; simp at h
      | some k =>
        rw [hxs] at h
        simp at h
        subst h
        simpa [List.getD] using ih hxs

theorem getD_map_lt {α β : Type} (f : α → β) (l : List α) (i : Nat)
    (h : i < l.length) (d1 : β) (d2 : α) :
    (l.map f).getD i d1 = f (l.getD i d2) := by
  induction l generalizing i with
  | nil => simp at h
  | cons x xs ih =>
    cases i with
    | zero => simp [List.getD]
    | succ k =>
      simp only [List.map_cons, List.getD_cons_succ]
      exact ih k (by simpa using h)

theorem padTo_eq_self (r : List String) (len : Nat) (h : len ≤ r.length) :
    padTo r len = r := by
  unfold padTo
  rw [Nat.sub_eq_zero_of_le h]
  simp

theorem filterMap_all_some {α : Type} (f : α → Option α) (l : List α)
    (h : ∀ x ∈ l, f x = some x) : l.filterMap f = l := by
  induction l with
  | nil => rfl
  | cons x xs ih =>
    rw [List.filterMap_cons, h x (by simp), ih (fun y hy => h y (by simp [hy]))]

theorem canonicalRowParse_recToRow (r : Rec) (hw : wellFormedRec r) (hc : completeRec r) :
    canonicalRowParse (recToRow r) = some r := by
  obtain ⟨hd, hn, ht, -⟩ := hw
  obtain ⟨hd0, hn0, ht0⟩ := hc
  unfold stripFixed at hd hn ht
  have c0 : cellStr (recToRow r) 0 "" = r.date := by
    unfold cellStr recToRow
    norm_num [List.getD, hd]
  have c2 : cellStr (recToRow r) 2 "" = r.name := by
    unfold cellStr recToRow
    have h2 : (2 : Int).toNat = 2 := rfl
    norm_num [List.getD, h2, hn]
  have c3 : cellStr (recToRow r) 3 "" = r.type := by
    unfold cellStr recToRow
    have h3 : (3 : Int).toNat = 3 := rfl
    norm_num [List.getD, h3, ht]
  have c4 : cellStr (recToRow r) 4 "0" = intToCell r.count := by
    unfold cellStr recToRow
    have h4 : (4 : Int).toNat = 4 := rfl
    norm_num [List.getD, h4, pstrip_intToCell]
  have c1 : (recToRow r).getD 1 "" = intToCell r.week := rfl
  unfold canonicalRowParse
  rw [c0, c2, c3, c4, c1]
  rw [if_neg (by simp [hd0, hn0, ht0])]
  rw [if_neg (by rw [pstrip_intToCell]; exact intToCell_ne_empty r.week)]
  rw [pyInt?_intToCell, pyInt?_intToCell]
  rfl

theorem parse_records_map (recs : List Rec)
    (h : ∀ r ∈ recs, wellFormedRec r ∧ completeRec r) :
    parse_records (RECORDS_HEADER :: recs.map recToRow) = recs := by
  rw [parse_records_canonical, List.filterMap_map]
  exact filterMap_all_some _ recs
    (fun r hr => canonicalRowParse_recToRow r (h r hr).1 (h r hr).2)

theorem getD_set_self {α : Type} (l : List α) (i : Nat) (x d : α) (h : i < l.length) :
    (l.set i x).getD i d = x := by
  simp [List.getD, List.getElem?_set_self, h]

theorem updateCell_cons (hdr : List String) (rows : List (List String)) (j col : Nat)
    (v : String) :
    updateCell (hdr :: rows) (j + 2) col v
      = hdr :: rows.set j ((padTo (rows.getD j []) col).set (col - 1) v) := by
  unfold updateCell
  have h21 : j + 2 - 1 = j + 1 := by omega
  rw [h21, List.getD_cons_succ, List.set_cons_succ]

theorem getD_mem (l : List Rec) (j : Nat) (h : j < l.length) : l.getD j defaultRec ∈ l := by
  rw [List.getD_eq_getElem l defaultRec h]
  exact List.getElem_mem h

/-- The backend insert on a canonically-headed sheet whose data rows hold
well-formed records mirrors the local insert exactly: same found-row
decision, same additive count, no exception. -/
theorem insert_backend_step (recs : List Rec) (d n t : String) (c : Int)
    (hall : ∀ r ∈ recs, wellFormedRec r) :
    insert_or_update_record_backend (RECORDS_HEADER :: recs.map recToRow) d n t c
        (iso_week_of d)
      = some (RECORDS_HEADER ::
          (insert_or_update_record_local recs d n t c (iso_week_of d)).map recToRow) := by
  unfold insert_or_update_record_backend
  simp only [List.headD_cons, idx_rec_date, idx_rec_week, idx_rec_name, idx_rec_type,
    idx_rec_count, List.drop_succ_cons, List.drop_zero]
  rw [findIdx?_map_congr recToRow _ (recKeyMatch d n t) recs
    (fun r hr => rowMatchesKey_recToRow d n t r (hall r hr).1 (hall r hr).2.1 (hall r hr).2.2.1)]
  cases hfind : recs.findIdx? (recKeyMatch d n t) with
  | none =>
    rw [insert_local_eq_append recs d n t c (iso_week_of d) hfind]
    dsimp only
    norm_num [pyListSet?, List.map_append, recToRow]
    rfl
  | some j =>
    have hj : j < recs.length := findIdx?_some_bound hfind
    have hjm : j < (recs.map recToRow).length := by simpa using hj
    have hpred : recKeyMatch d n t (recs.getD j defaultRec) = true :=
      findIdx?_some_pred hfind defaultRec
    have hkey : (recs.getD j defaultRec).date = d ∧ (recs.getD j defaultRec).name = n ∧
        (recs.getD j defaultRec).type = t := of_decide_eq_true hpred
    have hwfj : wellFormedRec (recs.getD j defaultRec) :=
      hall _ (getD_mem recs j hj)
    have hweekj : (recs.getD j defaultRec).week = iso_week_of d := by
      rw [hwfj.2.2.2, hkey.1]
    have hrow : (recs.map recToRow).getD j [] = recToRow (recs.getD j defaultRec) :=
      getD_map_lt recToRow recs j hj [] defaultRec
    rw [insert_local_eq_set recs d n t c (iso_week_of d) j hfind]
    dsimp only
    rw [hrow]
    have hget4 : pyGet? (recToRow (recs.getD j defaultRec)) 4
        = some (intToCell (recs.getD j defaultRec).count) := rfl
    rw [hget4]
    dsimp only
    rw [pyInt?_intToCell, Option.getD_some]
    rw [if_pos (by norm_num : (0 : Int) ≤ 4), if_pos (by norm_num : (0 : Int) ≤ 1)]
    have hc5 : (4 : Int).toNat + 1 = 5 := rfl
    have hc2 : (1 : Int).toNat + 1 = 2 := rfl
    rw [hc5, hc2]
    rw [updateCell_cons, hrow]
    rw [padTo_eq_self _ _ (by simp [recToRow])]
    have hsetrow : (recToRow (recs.getD j defaultRec)).set (5 - 1)
        (intToCell ((recs.getD j defaultRec).count + c))
        = [(recs.getD j defaultRec).date, intToCell (recs.getD j defaultRec).week,
           (recs.getD j defaultRec).name, (recs.getD j defaultRec).type,
           intToCell ((recs.getD j defaultRec).count + c)] := rfl
    rw [hsetrow]
    rw [updateCell_cons]
    rw [getD_set_self _ _ _ _ (by simpa using hj)]
    rw [padTo_eq_self _ _ (by simp)]
    rw [List.set_set]
    rw [List.map_set]
    congr 2
    unfold bump recToRow
    rw [hweekj]
    rfl

theorem insert_local_preserves (recs : List Rec) (d n t : String) (c : Int)
    (hall : ∀ r ∈ recs, wellFormedRec r ∧ completeRec r)
    (hd : stripFixed d) (hn : stripFixed n) (ht : stripFixed t)
    (hd0 : d ≠ "") (hn0 : n ≠ "") (ht0 : t ≠ "") :
    ∀ r ∈ insert_or_update_record_local recs d n t c (iso_week_of d),
      wellFormedRec r ∧ completeRec r := by
  cases hfind : recs.findIdx? (recKeyMatch d n t) with
  | none =>
    rw [insert_local_eq_append _ _ _ _ _ _ hfind]
    intro r hr
    rcases List.mem_append.mp hr with h | h
    · exact hall r h
    · simp only [List.mem_singleton] at h
      subst h
      exact ⟨⟨hd, hn, ht, rfl⟩, hd0, hn0, ht0⟩
  | some j =>
    rw [insert_local_eq_set _ _ _ _ _ _ j hfind]
    intro r hr
    rcases List.mem_or_eq_of_mem_set hr with h | h
    · exact hall r h
    · subst h
      have hj : j < recs.length := findIdx?_some_bound hfind
      have hb := hall _ (getD_mem recs j hj)
      exact ⟨⟨hb.1.1, hb.1.2.1, hb.1.2.2.1, hb.1.2.2.2⟩, hb.2.1, hb.2.2.1, hb.2.2.2⟩

/-! ## Target rows -/

/-- The sheet row holding a target entry, as the backend writes it. -/
def tgtToRow (e : (String × String) × Int) : List String :=
  [e.1.1, e.1.2, intToCell e.2]

/-- The stored key strings are strip-fixed. -/
def wellFormedTgt (e : (String × String) × Int) : Prop :=
  stripFixed e.1.1 ∧ stripFixed e.1.2

/-- The key comparison of the local target dict (exact tuple equality). -/
def tgtKeyMatch (m c : String) (e : (String × String) × Int) : Bool :=
  decide (e.1 = (m, c))

def defaultTgt : (String × String) × Int := (("", ""), 0)

theorem tgtRowMatches_tgtToRow (m c : String) (e : (String × String) × Int)
    (h1 : stripFixed e.1.1) (h2 : stripFixed e.1.2) :
    tgtRowMatches 0 1 m c (tgtToRow e) = tgtKeyMatch m c e := by
  unfold stripFixed at h1 h2
  unfold tgtRowMatches tgtKeyMatch tgtToRow
  rw [decide_eq_decide]
  have h0 : (0 : Int).toNat = 0 := rfl
  have hi1 : (1 : Int).toNat = 1 := rfl
  simp only [List.getD, h0, hi1]
  norm_num [h1, h2, Prod.ext_iff]

theorem set_local_eq_append (l : LocalTargets) (m c : String) (v : Int)
    (h : l.findIdx? (tgtKeyMatch m c) = none) :
    set_target_local l m c v = l ++ [((m, c), v)] := by
  induction l with
  | nil => rfl
  | cons e rest ih =>
    rw [findIdx?_cons_elim] at h
    unfold set_target_local
    by_cases he : e.1 = (m, c)
    · exfalso
      have hkm : tgtKeyMatch m c e = true := decide_eq_true he
      rw [hkm, if_pos rfl] at h
      exact Option.some_ne_none 0 h
    · rw [if_neg he]
      have hkm : tgtKeyMatch m c e = false := decide_eq_false he
      rw [hkm] at h
      have hnone : rest.findIdx? (tgtKeyMatch m c) = none := by
        cases hrest : rest.findIdx? (tgtKeyMatch m c) with
        | none => rfl
        | some k => rw [hrest] at h; simp at h
      rw [ih hnone]
      simp

theorem set_local_eq_set (l : LocalTargets) (m c : String) (v : Int) (j : Nat)
    (h : l.findIdx? (tgtKeyMatch m c) = some j) :
    set_target_local l m c v = l.set j ((m, c), v) := by
  induction l generalizing j with
  | nil => simp at h
  | cons e rest ih =>
    rw [findIdx?_cons_elim] at h
    unfold set_target_local
    by_cases he : e.1 = (m, c)
    · have hkm : tgtKeyMatch m c e = true := decide_eq_true he
      rw [hkm, if_pos rfl] at h
      have hj : j = 0 := (Option.some_inj.mp h).symm
      subst hj
      rw [if_pos he]
      rfl
    · rw [if_neg he]
      have hkm : tgtKeyMatch m c e = false := decide_eq_false he
      rw [hkm] at h
      cases hrest : rest.findIdx? (tgtKeyMatch m c) with
      | none => rw [hrest] at h; simp at h
      | some k =>
        rw [hrest] at h
        simp at h
        subst h
        rw [ih k hrest]
        rfl

theorem get_local_eq (l : LocalTargets) (m c : String) :
    get_target_local l m c
      = match l.findIdx? (tgtKeyMatch m c) with
        | some j => (l.getD j defaultTgt).2
        | none => 0 := by
  induction l with
  | nil => rfl
  | cons e rest ih =>
    rw [findIdx?_cons_elim]
    unfold get_target_local
    by_cases he : e.1 = (m, c)
    · have hkm : tgtKeyMatch m c e = true := decide_eq_true he
      rw [hkm, if_pos rfl, if_pos he]
      rfl
    · have hkm : tgtKeyMatch m c e = false := decide_eq_false he
      rw [hkm, if_neg he, ih]
      cases hrest : rest.findIdx? (tgtKeyMatch m c) with
      | none => rfl
      | some k => rfl

theorem getD_mem_tgt (l : LocalTargets) (j : Nat) (h : j < l.length) :
    l.getD j defaultTgt ∈ l := by
  rw [List.getD_eq_getElem l defaultTgt h]
  exact List.getElem_mem h

/-- The backend target write on a canonically-headed sheet holding
well-formed entries mirrors the local dict write: replace the first
matching row's target cell, else append. -/
theorem set_backend_step (l : LocalTargets) (m c : String) (v : Int)
    (hall : ∀ e ∈ l, wellFormedTgt e) :
    set_target_backend (TARGETS_HEADER :: l.map tgtToRow) m c v
      = some (TARGETS_HEADER :: (set_target_local l m c v).map tgtToRow) := by
  unfold set_target_backend
  simp only [List.headD_cons, idx_tgt_month, idx_tgt_category, idx_tgt_target,
    List.drop_succ_cons, List.drop_zero]
  rw [findIdx?_map_congr tgtToRow _ (tgtKeyMatch m c) l
    (fun e he => tgtRowMatches_tgtToRow m c e (hall e he).1 (hall e he).2)]
  cases hfind : l.findIdx? (tgtKeyMatch m c) with
  | none =>
    rw [set_local_eq_append l m c v hfind]
    dsimp only
    norm_num [pyListSet?, List.map_append, tgtToRow]
    rfl
  | some j =>
    have hj : j < l.length := findIdx?_some_bound hfind
    have hpred : tgtKeyMatch m c (l.getD j defaultTgt) = true :=
      findIdx?_some_pred hfind defaultTgt
    have hkey : (l.getD j defaultTgt).1 = (m, c) := of_decide_eq_true hpred
    have hrow : (l.map tgtToRow).getD j [] = tgtToRow (l.getD j defaultTgt) :=
      getD_map_lt tgtToRow l j hj [] defaultTgt
    rw [set_local_eq_set l m c v j hfind]
    dsimp only
    rw [if_pos (by norm_num : (0 : Int) ≤ 2)]
    have hc3 : (2 : Int).toNat + 1 = 3 := rfl
    rw [hc3, updateCell_cons, hrow]
    rw [padTo_eq_self _ _ (by simp [tgtToRow])]
    have hsetrow : (tgtToRow (l.getD j defaultTgt)).set (3 - 1) (intToCell v)
        = [(l.getD j defaultTgt).1.1, (l.getD j defaultTgt).1.2, intToCell v] := rfl
    rw [hsetrow, List.map_set]
    congr 2
    unfold tgtToRow
    rw [hkey]

/-- The backend target read on a canonically-headed sheet holding
well-formed entries agrees with the local dict read. -/
theorem get_backend_eq (l : LocalTargets) (m c : String)
    (hall : ∀ e ∈ l, wellFormedTgt e) :
    get_target_backend (TARGETS_HEADER :: l.map tgtToRow) m c
      = get_target_local l m c := by
  cases l with
  | nil => rfl
  | cons e0 rest =>
    unfold get_target_backend
    rw [if_neg (by simp)]
    simp only [List.headD_cons, pstrip_targets_header, idx_tgt_month, idx_tgt_category,
      idx_tgt_target, List.drop_succ_cons, List.drop_zero]
    rw [findIdx?_map_congr tgtToRow _ (tgtKeyMatch m c) (e0 :: rest)
      (fun e he => tgtRowMatches_tgtToRow m c e (hall e he).1 (hall e he).2)]
    rw [get_local_eq]
    cases hfind : (e0 :: rest).findIdx? (tgtKeyMatch m c) with
    | none => rfl
    | some j =>
      have hj : j < (e0 :: rest).length := findIdx?_some_bound hfind
      have hrow : ((e0 :: rest).map tgtToRow).getD j [] = tgtToRow ((e0 :: rest).getD j defaultTgt) :=
        getD_map_lt tgtToRow (e0 :: rest) j hj [] defaultTgt
      dsimp only
      rw [hrow]
      rw [if_pos (by constructor <;> norm_num [tgtToRow])]
      have hcell : (tgtToRow ((e0 :: rest).getD j defaultTgt)).getD (2 : Int).toNat ""
          = intToCell ((e0 :: rest).getD j defaultTgt).2 := rfl
      rw [hcell, pyInt?_intToCell]
      rfl

theorem set_local_preserves (l : LocalTargets) (m c : String) (v : Int)
    (hall : ∀ e ∈ l, wellFormedTgt e) (hm : stripFixed m) (hc : stripFixed c) :
    ∀ e ∈ set_target_local l m c v, wellFormedTgt e := by
  cases hfind : l.findIdx? (tgtKeyMatch m c) with
  | none =>
    rw [set_local_eq_append l m c v hfind]
    intro e he
    rcases List.mem_append.mp he with h | h
    · exact hall e h
    · simp only [List.mem_singleton] at h
      subst h
      exact ⟨hm, hc⟩
  | some j =>
    rw [set_local_eq_set l m c v j hfind]
    intro e he
    rcases List.mem_or_eq_of_mem_set he with h | h
    · exact hall e h
    · subst h
      exact ⟨hm, hc⟩

/-! ## Operation sequences -/

/-- One `insert_or_update_record` call: (date, name, type, count). -/
abbrev InsertOp := String × String × String × Int

/-- One `set_target` call: (month, category, target). -/
abbrev TargetOp := String × String × Int

def runInserts (o : OpOutcome) (ops : List InsertOp) (st : StoreState) : StoreState :=
  ops.foldl (fun st p => insert_or_update_record o st p.1 p.2.1 p.2.2.1 p.2.2.2) st

def runLocalInserts (ops : List InsertOp) (recs : List Rec) : List Rec :=
  ops.foldl
    (fun recs p => insert_or_update_record_local recs p.1 p.2.1 p.2.2.1 p.2.2.2 (iso_week_of p.1))
    recs

def runSetTargets (o : OpOutcome) (ops : List TargetOp) (st : StoreState) : StoreState :=
  ops.foldl (fun st p => set_target o st p.1 p.2.1 p.2.2) st

def runLocalTargets (ops : List TargetOp) (l : LocalTargets) : LocalTargets :=
  ops.foldl (fun l p => set_target_local l p.1 p.2.1 p.2.2) l

/-- Key fields of an insert are strip-fixed and non-blank. -/
abbrev goodInsertOp (p : InsertOp) : Prop :=
  stripFixed p.1 ∧ stripFixed p.2.1 ∧ stripFixed p.2.2.1
    ∧ p.1 ≠ "" ∧ p.2.1 ≠ "" ∧ p.2.2.1 ≠ ""

/-- Key fields of a target write are strip-fixed. -/
abbrev goodTargetOp (p : TargetOp) : Prop :=
  stripFixed p.1 ∧ stripFixed p.2.1

/-- The state after `init_db` on a fresh deployment: provisioned header
rows, no data, empty fallback stores. -/
def emptyState : StoreState :=
  ⟨[RECORDS_HEADER], [TARGETS_HEADER], [], []⟩

theorem runInserts_ok (ops : List InsertOp) :
    ∀ (recs : List Rec) (ts : Sheet) (L : List Rec) (T : LocalTargets),
    (∀ p ∈ ops, goodInsertOp p) →
    (∀ r ∈ recs, wellFormedRec r ∧ completeRec r) →
    runInserts .ok ops ⟨RECORDS_HEADER :: recs.map recToRow, ts, L, T⟩
      = ⟨RECORDS_HEADER :: (runLocalInserts ops recs).map recToRow, ts, L, T⟩ := by
  induction ops with
  | nil =>
    intro recs ts L T _ _
    rfl
  | cons p rest ih =>
    intro recs ts L T hops hrecs
    have hstep := insert_backend_step recs p.1 p.2.1 p.2.2.1 p.2.2.2
      (fun r hr => (hrecs r hr).1)
    have hfirst : insert_or_update_record .ok ⟨RECORDS_HEADER :: recs.map recToRow, ts, L, T⟩
        p.1 p.2.1 p.2.2.1 p.2.2.2
        = ⟨RECORDS_HEADER ::
            (insert_or_update_record_local recs p.1 p.2.1 p.2.2.1 p.2.2.2
              (iso_week_of p.1)).map recToRow, ts, L, T⟩ := by
      unfold insert_or_update_record
      dsimp only
      rw [hstep]
    show runInserts .ok rest _ = _
    dsimp only
    rw [hfirst]
    have hgood := hops p (by simp)
    unfold goodInsertOp at hgood
    exact ih _ ts L T (fun q hq => hops q (by simp [hq]))
      (insert_local_preserves recs p.1 p.2.1 p.2.2.1 p.2.2.2 hrecs
        hgood.1 hgood.2.1 hgood.2.2.1 hgood.2.2.2.1 hgood.2.2.2.2.1 hgood.2.2.2.2.2)

theorem runInserts_unavailable (ops : List InsertOp) :
    ∀ st : StoreState, runInserts .unavailable ops st
      = { st with localRecs := runLocalInserts ops st.localRecs } := by
  induction ops with
  | nil => intro st; rfl
  | cons p rest ih =>
    intro st
    show runInserts .unavailable rest _ = _
    dsimp only
    rw [ih]
    rfl

theorem runSetTargets_ok (ops : List TargetOp) :
    ∀ (l : LocalTargets) (rs : Sheet) (L : List Rec) (T : LocalTargets),
    (∀ p ∈ ops, goodTargetOp p) →
    (∀ e ∈ l, wellFormedTgt e) →
    runSetTargets .ok ops ⟨rs, TARGETS_HEADER :: l.map tgtToRow, L, T⟩
      = ⟨rs, TARGETS_HEADER :: (runLocalTargets ops l).map tgtToRow, L, T⟩ := by
  induction ops with
  | nil =>
    intro l rs L T _ _
    rfl
  | cons p rest ih =>
    intro l rs L T hops hl
    have hstep := set_backend_step l p.1 p.2.1 p.2.2 hl
    have hfirst : set_target .ok ⟨rs, TARGETS_HEADER :: l.map tgtToRow, L, T⟩
        p.1 p.2.1 p.2.2
        = ⟨rs, TARGETS_HEADER ::
            (set_target_local l p.1 p.2.1 p.2.2).map tgtToRow, L, T⟩ := by
      unfold set_target
      dsimp only
      rw [hstep]
    show runSetTargets .ok rest _ = _
    dsimp only
    rw [hfirst]
    have hgood := hops p (by simp)
    exact ih _ rs L T (fun q hq => hops q (by simp [hq]))
      (set_local_preserves l p.1 p.2.1 p.2.2 hl hgood.1 hgood.2)

theorem runSetTargets_unavailable (ops : List TargetOp) :
    ∀ st : StoreState, runSetTargets .unavailable ops st
      = { st with localTgts := runLocalTargets ops st.localTgts } := by
  induction ops with
  | nil => intro st; rfl
  | cons p rest ih =>
    intro st
    show runSetTargets .unavailable rest _ = _
    dsimp only
    rw [ih]
    rfl

theorem runLocalInserts_preserves (ops : List InsertOp) :
    ∀ recs : List Rec,
    (∀ p ∈ ops, goodInsertOp p) →
    (∀ r ∈ recs, wellFormedRec r ∧ completeRec r) →
    ∀ r ∈ runLocalInserts ops recs, wellFormedRec r ∧ completeRec r := by
  induction ops with
  | nil => intro recs _ hrecs; exact hrecs
  | cons p rest ih =>
    intro recs hops hrecs
    have hgood := hops p (by simp)
    unfold goodInsertOp at hgood
    exact ih _ (fun q hq => hops q (by simp [hq]))
      (insert_local_preserves recs p.1 p.2.1 p.2.2.1 p.2.2.2 hrecs
        hgood.1 hgood.2.1 hgood.2.2.1 hgood.2.2.2.1 hgood.2.2.2.2.1 hgood.2.2.2.2.2)

theorem runLocalTargets_preserves (ops : List TargetOp) :
    ∀ l : LocalTargets,
    (∀ p ∈ ops, goodTargetOp p) →
    (∀ e ∈ l, wellFormedTgt e) →
    ∀ e ∈ runLocalTargets ops l, wellFormedTgt e := by
  induction ops with
  | nil => intro l _ hl; exact hl
  | cons p rest ih =>
    intro l hops hl
    have hgood := hops p (by simp)
    exact ih _ (fun q hq => hops q (by simp [hq]))
      (set_local_preserves l p.1 p.2.1 p.2.2 hl hgood.1 hgood.2)

/-! ## Cell-level frame lemmas -/

theorem getD_set_ne {α : Type} (l : List α) (i k : Nat) (x d : α) (h : i ≠ k) :
    (l.set i x).getD k d = l.getD k d := by
  simp [List.getD, List.getElem?_set_ne h]

theorem padTo_length (r : List String) (len : Nat) :
    (padTo r len).length = max r.length len := by
  unfold padTo
  simp
  omega

theorem getD_padTo (r : List String) (len i : Nat) :
    (padTo r len).getD i "" = r.getD i "" := by
  unfold padTo
  by_cases h : i < r.length
  · simp [List.getD, List.getElem?_append, h]
  · have hrhs : r.getD i "" = "" := List.getD_eq_default _ _ (by omega)
    rw [hrhs]
    simp only [List.getD, List.get?_eq_getElem?, List.getElem?_append]
    rw [if_neg h]
    by_cases h2 : i - r.length < len - r.length
    · simp [List.getElem?_replicate, h2]
    · rw [List.getElem?_eq_none (by simp; omega)]
      rfl

theorem idxOf_nonneg_of_mem (hdr : List String) (k : String) (h : k ∈ hdr) :
    0 ≤ idxOf hdr k := by
  unfold idxOf
  rw [if_pos h]
  exact Int.ofNat_nonneg _

theorem idxOf_toNat (hdr : List String) (k : String) (h : k ∈ hdr) :
    (idxOf hdr k).toNat = hdr.indexOf k := by
  unfold idxOf
  rw [if_pos h]
  exact Int.toNat_ofNat _

theorem idxOf_of_not_mem (hdr : List String) (k : String) (h : k ∉ hdr) :
    idxOf hdr k = -1 := by
  unfold idxOf
  rw [if_neg h]

theorem indexOf_ne_of_mem_ne (hdr : List String) (k1 k2 : String)
    (h1 : k1 ∈ hdr) (h2 : k2 ∈ hdr) (hne : k1 ≠ k2) :
    hdr.indexOf k1 ≠ hdr.indexOf k2 := by
  intro hcontra
  apply hne
  have e1 : hdr.get ⟨hdr.indexOf k1, List.indexOf_lt_length.mpr h1⟩ = k1 := by
    simp [List.getElem_indexOf (List.indexOf_lt_length.mpr h1)]
  have e2 : hdr.get ⟨hdr.indexOf k2, List.indexOf_lt_length.mpr h2⟩ = k2 := by
    simp [List.getElem_indexOf (List.indexOf_lt_length.mpr h2)]
  rw [← e1, ← e2]
  congr 1
  exact Fin.ext hcontra

/-! ## Claim theorems -/

/-- C7: for every record date string that parses as a calendar date, the
derived week value `_iso_week_of` returns is the ISO-8601 week number of
that date — an integer between 1 and 53, computed with Monday-start weeks
(2024-12-30 is weekday 1, a Monday) and ISO year-boundary rules, so that
2024-12-30 yields week 1 (of ISO year 2025), not week 53. -/
theorem C7_iso_week_correct :
    (∀ (s : String) (y m d : Nat), parseDate s = some (y, m, d) →
        iso_week_of s = (isoWeek y m d : Int)
          ∧ 1 ≤ iso_week_of s ∧ iso_week_of s ≤ 53)
    ∧ parseDate "2024-12-30" = some (2024, 12, 30)
    ∧ isoWeekday 2024 12 30 = 1
    ∧ iso_week_of "2024-12-30" = 1 := by
  refine ⟨?_, by decide, by decide, by decide⟩
  intro s y m d hparse
  have hbounds := isoWeek_bounds y m d
  unfold iso_week_of
  rw [hparse]
  dsimp only
  refine ⟨rfl, ?_, ?_⟩ <;> omega

/-- C7 witness: the general bound applied at the concrete date 2025-01-10. -/
theorem C7_iso_week_correct_witness :
    iso_week_of "2025-01-10" = (isoWeek 2025 1 10 : Int)
      ∧ 1 ≤ iso_week_of "2025-01-10" ∧ iso_week_of "2025-01-10" ≤ 53 :=
  C7_iso_week_correct.1 "2025-01-10" 2025 1 10 (by decide)

/-- The sheet a healthy second read attempt would return in the C4
counterexample. -/
def c4DemoSheet : Sheet :=
  [RECORDS_HEADER, ["2025-01-10", "2", "Aki", "new", "3"]]

/-- C4 counterexample: the remote read of `load_all_records` is attempted
exactly once with no retry.  With an oracle whose first attempt raises a
transient HTTP 429 and whose every later attempt would return a sheet
with one record, the function returns the (empty) local list — the
claimed retry wrapper would instead have slept, retried and returned that
record; nothing is re-raised either. -/
theorem C4_counterexample :
    load_records_from_remote
        (fun k => if k = 0 then .raised (.status 429) else .ok c4DemoSheet) []
      = []
    ∧ transientErr (.status 429) = true
    ∧ parse_records c4DemoSheet = [⟨"2025-01-10", 2, "Aki", "new", 3⟩]
    ∧ load_records_from_remote (fun _ => .ok c4DemoSheet) []
      = [⟨"2025-01-10", 2, "Aki", "new", 3⟩] := by
  refine ⟨rfl, by decide, by decide, by decide⟩

/-- C4 amended: every remote read of `load_all_records` consults exactly
the first attempt: the result depends only on `attempts 0`, and when that
single attempt raises — with any status, transient or not — the function
immediately returns the local fallback list, with no retry and no
re-raise. -/
theorem C4_single_attempt_no_retry :
    ∀ (f g : Nat → Attempt) (locals : List Rec),
      (f 0 = g 0 → load_records_from_remote f locals = load_records_from_remote g locals)
      ∧ (∀ e : RemoteErr, f 0 = .raised e → load_records_from_remote f locals = locals) := by
  intro f g locals
  constructor
  · intro h
    unfold load_records_from_remote
    rw [h]
  · intro e he
    unfold load_records_from_remote
    rw [he]

/-- C4 witness: the amended theorem applied to a concrete oracle that
raises a 429 on its only consulted attempt. -/
theorem C4_single_attempt_no_retry_witness :
    load_records_from_remote (fun _ => .raised (.status 429)) [] = [] :=
  (C4_single_attempt_no_retry (fun _ => .raised (.status 429))
    (fun _ => .raised (.status 429)) []).2 (.status 429) rfl

/-- C8 counterexample: a first row that differs from the canonical header
in length (it has a sixth, extra cell) triggers no write, and the
worksheet's first row afterwards is not the canonical header — the
provisioner compares only the first `len(header)` trimmed cells. -/
theorem C8_counterexample :
    (ensure_header (RECORDS_HEADER ++ ["junk"]) RECORDS_HEADER).1 = false
    ∧ (RECORDS_HEADER ++ ["junk"]).length ≠ RECORDS_HEADER.length
    ∧ (ensure_header (RECORDS_HEADER ++ ["junk"]) RECORDS_HEADER).2 ≠ RECORDS_HEADER := by
  refine ⟨by decide, by decide, by decide⟩

/-- C8 amended: for headers of up to 26 columns, the provisioner
overwrites row 1 exactly when the first `len(header)` trimmed,
stringified first-row cells differ from the canonical header (cells
beyond the header length are ignored by both the comparison and the
repair); after a repair the first `len(header)` cells equal the canonical
header, and a worksheet whose trimmed header prefix is already correct
gets no write at all. -/
theorem C8_header_prefix_repair :
    ∀ (firstRow header : List String), header.length ≤ 26 →
      ((firstRow.map pstrip).take header.length = header →
          ensure_header firstRow header = (false, firstRow))
      ∧ ((firstRow.map pstrip).take header.length ≠ header →
          (ensure_header firstRow header).1 = true
            ∧ (ensure_header firstRow header).2.take header.length = header) := by
  intro firstRow header _
  constructor
  · intro h
    unfold ensure_header
    rw [if_neg (by simpa using h)]
  · intro h
    unfold ensure_header
    rw [if_pos (by simpa using h)]
    exact ⟨rfl, by simp⟩

/-- C8 witness: the amended theorem applied to a worksheet whose header
cells carry stray whitespace. -/
theorem C8_header_prefix_repair_witness :
    (ensure_header [" date", "week"] RECORDS_HEADER).1 = true
      ∧ (ensure_header [" date", "week"] RECORDS_HEADER).2.take 5 = RECORDS_HEADER := by
  have h := ((C8_header_prefix_repair [" date", "week"] RECORDS_HEADER (by decide)).2 (by decide))
  exact ⟨h.1, h.2⟩

theorem eraseIdx_getD_lt {α : Type} (l : List α) (j k : Nat) (d : α) (h : k < j) :
    (l.eraseIdx j).getD k d = l.getD k d := by
  induction l generalizing j k with
  | nil => rfl
  | cons x xs ih =>
    cases j with
    | zero => omega
    | succ j0 =>
      cases k with
      | zero => rfl
      | succ k0 =>
        rw [List.eraseIdx_cons_succ, List.getD_cons_succ, List.getD_cons_succ]
        exact ih j0 k0 (by omega)

theorem eraseIdx_getD_ge {α : Type} (l : List α) (j k : Nat) (d : α) (h : j ≤ k) :
    (l.eraseIdx j).getD k d = l.getD (k + 1) d := by
  induction l generalizing j k with
  | nil => rfl
  | cons x xs ih =>
    cases j with
    | zero => rfl
    | succ j0 =>
      cases k with
      | zero => omega
      | succ k0 =>
        rw [List.eraseIdx_cons_succ, List.getD_cons_succ, List.getD_cons_succ]
        exact ih j0 k0 (by omega)

/-- C3: `delete_record` removes exactly the first row matching the
`(date, name, type)` key, leaves every other row unchanged (rows before
the removed index keep their position, rows after shift down by one, so
rows agreeing on only two of the three key fields are untouched), and
returns true exactly when a row was removed; a non-existent key returns
false and mutates nothing.  (The modelled operation is spec-derived:
`delete_record` is imported by src/data_management.py but absent from
src/db_gsheets.py.) -/
theorem C3_delete_record_precise :
    ∀ (recs : List Rec) (d n t : String),
      ((delete_record recs d n t).2 = true
        ↔ ∃ r ∈ recs, r.date = d ∧ r.name = n ∧ r.type = t)
      ∧ ((delete_record recs d n t).2 = false → (delete_record recs d n t).1 = recs)
      ∧ (∀ j, recs.findIdx? (fun r => decide (r.date = d ∧ r.name = n ∧ r.type = t)) = some j →
          (delete_record recs d n t).1 = recs.eraseIdx j
          ∧ (delete_record recs d n t).1.length + 1 = recs.length
          ∧ (∀ k, k < j →
              (delete_record recs d n t).1.getD k defaultRec = recs.getD k defaultRec)
          ∧ (∀ k, j ≤ k →
              (delete_record recs d n t).1.getD k defaultRec = recs.getD (k + 1) defaultRec)) := by
  intro recs d n t
  unfold delete_record
  cases hfind : recs.findIdx? (fun r => decide (r.date = d ∧ r.name = n ∧ r.type = t)) with
  | none =>
    dsimp only
    refine ⟨?_, fun _ => rfl, ?_⟩
    · constructor
      · intro h
        exact absurd h (by simp)
      · rintro ⟨r, hr, hkey⟩
        have hfalse := findIdx?_none_iff.mp hfind r hr
        exact absurd hkey (of_decide_eq_false hfalse)
    · intro j hj
      simp at hj
  | some j0 =>
    have hbound : j0 < recs.length := findIdx?_some_bound hfind
    have hpred := findIdx?_some_pred hfind defaultRec
    dsimp only
    refine ⟨?_, ?_, ?_⟩
    · constructor
      · intro _
        exact ⟨recs.getD j0 defaultRec, getD_mem recs j0 hbound, of_decide_eq_true hpred⟩
      · intro _
        rfl
    · intro hcontra
      cases hcontra
    · intro j hj
      have hj0 : j0 = j := Option.some_inj.mp hj
      subst hj0
      refine ⟨rfl, ?_, ?_, ?_⟩
      · rw [List.length_eraseIdx]
        simp [hbound]
        omega
      · intro k hk
        exact eraseIdx_getD_lt recs j0 k defaultRec hk
      · intro k hk
        exact eraseIdx_getD_ge recs j0 k defaultRec hk

/-- C3 witness: deleting a key removes exactly that row and reports true;
the sibling row differing only in `type` survives; deleting a missing key
reports false and leaves the list unchanged. -/
theorem C3_delete_record_precise_witness :
    (delete_record [⟨"2025-01-10", 2, "Aki", "new", 3⟩, ⟨"2025-01-10", 2, "Aki", "exist", 4⟩]
        "2025-01-10" "Aki" "exist").2 = true
    ∧ (delete_record [⟨"2025-01-10", 2, "Aki", "new", 3⟩] "2025-01-10" "Aki" "exist").1
      = [⟨"2025-01-10", 2, "Aki", "new", 3⟩] := by
  constructor
  · exact (C3_delete_record_precise
      [⟨"2025-01-10", 2, "Aki", "new", 3⟩, ⟨"2025-01-10", 2, "Aki", "exist", 4⟩]
      "2025-01-10" "Aki" "exist").1.mpr
      ⟨⟨"2025-01-10", 2, "Aki", "exist", 4⟩, by decide, by decide⟩
  · exact (C3_delete_record_precise [⟨"2025-01-10", 2, "Aki", "new", 3⟩]
      "2025-01-10" "Aki" "exist").2.1 (by decide)

/-- C2: every public repository operation, under every failure outcome of
the remote backend (backend unavailable, provisioner returning an
unusable worksheet, a raising read, a raising write, or — for the two
write operations — an exception inside the backend branch itself),
performs the same logical operation on the local fallback store and
returns normally; the `.ok` equations of the operation models are total
functions, so no oracle outcome produces an unhandled exception. -/
theorem C2_error_boundary :
    ∀ (st : StoreState) (d n t m cat : String) (c v : Int),
      (∀ o : ReadOutcome, o ≠ .ok → load_all_records o st = st.localRecs)
      ∧ (∀ o : OpOutcome, o ≠ .ok →
          insert_or_update_record o st d n t c
            = { st with localRecs :=
                insert_or_update_record_local st.localRecs d n t c (iso_week_of d) })
      ∧ (insert_or_update_record_backend st.recSheet d n t c (iso_week_of d) = none →
          insert_or_update_record .ok st d n t c
            = { st with localRecs :=
                insert_or_update_record_local st.localRecs d n t c (iso_week_of d) })
      ∧ (∀ o : ReadOutcome, o ≠ .ok →
          get_target o st m cat = get_target_local st.localTgts m cat)
      ∧ (∀ o : OpOutcome, o ≠ .ok →
          set_target o st m cat v
            = { st with localTgts := set_target_local st.localTgts m cat v })
      ∧ (set_target_backend st.tgtSheet m cat v = none →
          set_target .ok st m cat v
            = { st with localTgts := set_target_local st.localTgts m cat v }) := by
  intro st d n t m cat c v
  refine ⟨?_, ?_, ?_, ?_, ?_, ?_⟩
  · intro o ho
    cases o with
    | ok => exact absurd rfl ho
    | unavailable => rfl
    | wsNone => rfl
    | readFail => rfl
  · intro o ho
    cases o with
    | ok => exact absurd rfl ho
    | unavailable => rfl
    | wsNone => rfl
    | readFail => rfl
    | writeFail => rfl
  · intro hnone
    unfold insert_or_update_record
    dsimp only
    rw [hnone]
  · intro o ho
    cases o with
    | ok => exact absurd rfl ho
    | unavailable => rfl
    | wsNone => rfl
    | readFail => rfl
  · intro o ho
    cases o with
    | ok => exact absurd rfl ho
    | unavailable => rfl
    | wsNone => rfl
    | readFail => rfl
    | writeFail => rfl
  · intro hnone
    unfold set_target
    dsimp only
    rw [hnone]

/-- C2 witness: the failure equations at a concrete state — one stored
record and one stored target — under the provisioner-unusable outcome. -/
theorem C2_error_boundary_witness :
    load_all_records .wsNone
        ⟨[RECORDS_HEADER], [TARGETS_HEADER], [⟨"2025-01-10", 2, "Aki", "new", 3⟩], []⟩
      = [⟨"2025-01-10", 2, "Aki", "new", 3⟩]
    ∧ get_target .wsNone
        ⟨[RECORDS_HEADER], [TARGETS_HEADER], [], [(("2025-01", "app"), 10)]⟩ "2025-01" "app"
      = 10 := by
  constructor
  · rw [(C2_error_boundary
      ⟨[RECORDS_HEADER], [TARGETS_HEADER], [⟨"2025-01-10", 2, "Aki", "new", 3⟩], []⟩
      "" "" "" "2025-01" "app" 0 0).1 .wsNone (by decide)]
  · rw [(C2_error_boundary
      ⟨[RECORDS_HEADER], [TARGETS_HEADER], [], [(("2025-01", "app"), 10)]⟩
      "" "" "" "2025-01" "app" 0 0).2.2.2.1 .wsNone (by decide)]
    decide

/-- C1 counterexample: with a date string carrying a trailing space, two
healthy-backend upserts with the identical key append two separate rows
(the scan compares the *stripped* stored cell against the *raw* argument,
so the second call never finds the first row): the table ends with two
stored rows for the key, with counts 3 and 2, not one row with count 5. -/
theorem C1_counterexample :
    (insert_or_update_record .ok
        (insert_or_update_record .ok emptyState "2025-01-10 " "Aki" "new" 3)
        "2025-01-10 " "Aki" "new" 2).recSheet
      = [RECORDS_HEADER,
         ["2025-01-10 ", "0", "Aki", "new", "3"],
         ["2025-01-10 ", "0", "Aki", "new", "2"]]
    ∧ (((insert_or_update_record .ok
        (insert_or_update_record .ok emptyState "2025-01-10 " "Aki" "new" 3)
        "2025-01-10 " "Aki" "new" 2).recSheet.drop 1).filter
        (fun r => decide (r.getD 0 "" = "2025-01-10 " ∧ r.getD 2 "" = "Aki"
          ∧ r.getD 3 "" = "new"))).length = 2 := by
  refine ⟨by decide, by decide⟩

/-- C1 amended: record upserts are additive for every key whose date,
name and type strings are unchanged by whitespace stripping: from the
empty provisioned table, two upserts with the same key leave exactly one
stored row for that key with count `c1 + c2`, on the healthy backend path
and on the local fallback path alike. -/
theorem C1_upsert_additive :
    ∀ (d n t : String) (c1 c2 : Int),
      stripFixed d → stripFixed n → stripFixed t →
      (insert_or_update_record .ok
          (insert_or_update_record .ok emptyState d n t c1) d n t c2).recSheet
        = [RECORDS_HEADER, [d, intToCell (iso_week_of d), n, t, intToCell (c1 + c2)]]
      ∧ (insert_or_update_record .unavailable
          (insert_or_update_record .unavailable emptyState d n t c1) d n t c2).localRecs
        = [⟨d, iso_week_of d, n, t, c1 + c2⟩] := by
  intro d n t c1 c2 hd hn ht
  have hwf : ∀ r ∈ ([⟨d, iso_week_of d, n, t, c1⟩] : List Rec), wellFormedRec r := by
    intro r hr
    simp only [List.mem_singleton] at hr
    subst hr
    exact ⟨hd, hn, ht, rfl⟩
  have hloc2 : insert_or_update_record_local [⟨d, iso_week_of d, n, t, c1⟩] d n t c2
      (iso_week_of d) = [⟨d, iso_week_of d, n, t, c1 + c2⟩] := by
    unfold insert_or_update_record_local
    rw [if_pos ⟨rfl, rfl, rfl⟩]
  constructor
  · have e1 : insert_or_update_record .ok emptyState d n t c1
        = ⟨[RECORDS_HEADER, [d, intToCell (iso_week_of d), n, t, intToCell c1]],
           [TARGETS_HEADER], [], []⟩ := by
      unfold insert_or_update_record
      dsimp only [emptyState]
      have h1 : insert_or_update_record_backend [RECORDS_HEADER] d n t c1 (iso_week_of d)
          = some [RECORDS_HEADER, [d, intToCell (iso_week_of d), n, t, intToCell c1]] :=
        insert_backend_step [] d n t c1 (fun r hr => absurd hr (List.not_mem_nil r))
      rw [h1]
    rw [e1]
    have h2 : insert_or_update_record_backend
        [RECORDS_HEADER, [d, intToCell (iso_week_of d), n, t, intToCell c1]] d n t c2
        (iso_week_of d)
        = some [RECORDS_HEADER, [d, intToCell (iso_week_of d), n, t, intToCell (c1 + c2)]] := by
      have h := insert_backend_step [⟨d, iso_week_of d, n, t, c1⟩] d n t c2 hwf
      rw [hloc2] at h
      exact h
    unfold insert_or_update_record
    dsimp only
    rw [h2]
  · show insert_or_update_record_local
        (insert_or_update_record_local [] d n t c1 (iso_week_of d)) d n t c2 (iso_week_of d)
      = [⟨d, iso_week_of d, n, t, c1 + c2⟩]
    exact hloc2

/-- C1 witness: the amended additive upsert at the spec's own concrete
inputs, on both paths. -/
theorem C1_upsert_additive_witness :
    (insert_or_update_record .ok
        (insert_or_update_record .ok emptyState "2025-01-10" "Aki" "new" 3)
        "2025-01-10" "Aki" "new" 2).recSheet
      = [RECORDS_HEADER, ["2025-01-10", "2", "Aki", "new", "5"]]
    ∧ (insert_or_update_record .unavailable
        (insert_or_update_record .unavailable emptyState "2025-01-10" "Aki" "new" 3)
        "2025-01-10" "Aki" "new" 2).localRecs
      = [⟨"2025-01-10", 2, "Aki", "new", 5⟩] := by
  have h := C1_upsert_additive "2025-01-10" "Aki" "new" 3 2 (by decide) (by decide) (by decide)
  constructor
  · rw [h.1]
    decide
  · rw [h.2]
    decide

/-- C5 counterexample: with a period string carrying a trailing space,
two healthy-backend `set_target` calls for the identical key append two
separate rows (same stripped-versus-raw scan mismatch as for records):
the table ends with two stored rows for the key, targets 10 and 25,
instead of one row with target 25. -/
theorem C5_counterexample :
    (set_target .ok (set_target .ok emptyState "2025-01 " "app" 10)
        "2025-01 " "app" 25).tgtSheet
      = [TARGETS_HEADER, ["2025-01 ", "app", "10"], ["2025-01 ", "app", "25"]]
    ∧ (((set_target .ok (set_target .ok emptyState "2025-01 " "app" 10)
        "2025-01 " "app" 25).tgtSheet.drop 1).filter
        (fun r => decide (r.getD 0 "" = "2025-01 " ∧ r.getD 1 "" = "app"))).length = 2 := by
  refine ⟨by decide, by decide⟩

/-- C5 amended: target writes replace rather than add for every key whose
period and category strings are unchanged by whitespace stripping: from
the empty provisioned table, two writes with the same key leave exactly
one stored row for that key whose target is the second value, on the
healthy backend path and on the local fallback path alike. -/
theorem C5_target_replace :
    ∀ (p cat : String) (v1 v2 : Int),
      stripFixed p → stripFixed cat →
      (set_target .ok (set_target .ok emptyState p cat v1) p cat v2).tgtSheet
        = [TARGETS_HEADER, [p, cat, intToCell v2]]
      ∧ (set_target .unavailable
          (set_target .unavailable emptyState p cat v1) p cat v2).localTgts
        = [((p, cat), v2)] := by
  intro p cat v1 v2 hp hc
  have hwf : ∀ e ∈ ([((p, cat), v1)] : LocalTargets), wellFormedTgt e := by
    intro e he
    simp only [List.mem_singleton] at he
    subst he
    exact ⟨hp, hc⟩
  have hloc2 : set_target_local [((p, cat), v1)] p cat v2 = [((p, cat), v2)] := by
    unfold set_target_local
    rw [if_pos rfl]
  constructor
  · have e1 : set_target .ok emptyState p cat v1
        = ⟨[RECORDS_HEADER], [TARGETS_HEADER, [p, cat, intToCell v1]], [], []⟩ := by
      unfold set_target
      dsimp only [emptyState]
      have h1 : set_target_backend [TARGETS_HEADER] p cat v1
          = some [TARGETS_HEADER, [p, cat, intToCell v1]] :=
        set_backend_step [] p cat v1 (fun e he => absurd he (List.not_mem_nil e))
      rw [h1]
    rw [e1]
    have h2 : set_target_backend [TARGETS_HEADER, [p, cat, intToCell v1]] p cat v2
        = some [TARGETS_HEADER, [p, cat, intToCell v2]] := by
      have h := set_backend_step [((p, cat), v1)] p cat v2 hwf
      rw [hloc2] at h
      exact h
    unfold set_target
    dsimp only
    rw [h2]
  · show set_target_local (set_target_local [] p cat v1) p cat v2 = [((p, cat), v2)]
    exact hloc2

/-- C5 witness: the amended replace semantics at the spec's own concrete
inputs, on both paths. -/
theorem C5_target_replace_witness :
    (set_target .ok (set_target .ok emptyState "2025-01" "app" 10)
        "2025-01" "app" 25).tgtSheet
      = [TARGETS_HEADER, ["2025-01", "app", "25"]]
    ∧ (set_target .unavailable
        (set_target .unavailable emptyState "2025-01" "app" 10) "2025-01" "app" 25).localTgts
      = [(("2025-01", "app"), 25)] := by
  have h := C5_target_replace "2025-01" "app" 10 25 (by decide) (by decide)
  constructor
  · rw [h.1]
    decide
  · rw [h.2]

/-- C9: under the canonical header, `load_all_records` skips the header
row and maps every raw row through one total per-row function
(`canonicalRowParse`): a row whose stripped `date`, `name` or `type` cell
is blank parses to `none` (silently dropped, never an error), every
complete row contributes exactly one record to the output, its `count` is
the integer parse of the count cell defaulting to 0, and its `week` is
recomputed from the date whenever the stored week cell is missing or
blank. -/
theorem C9_load_row_semantics :
    ∀ rows : List (List String),
      parse_records (RECORDS_HEADER :: rows) = rows.filterMap canonicalRowParse
      ∧ (∀ r ∈ rows,
          (cellStr r 0 "" = "" ∨ cellStr r 2 "" = "" ∨ cellStr r 3 "" = "") →
          canonicalRowParse r = none)
      ∧ (∀ r ∈ rows,
          cellStr r 0 "" ≠ "" → cellStr r 2 "" ≠ "" → cellStr r 3 "" ≠ "" →
          ∃ rec : Rec, canonicalRowParse r = some rec
            ∧ rec ∈ parse_records (RECORDS_HEADER :: rows)
            ∧ rec.count = (pyInt? (cellStr r 4 "0")).getD 0
            ∧ (pstrip (r.getD 1 "") = "" →
                rec.week = iso_week_of (cellStr r 0 ""))) := by
  intro rows
  refine ⟨parse_records_canonical rows, ?_, ?_⟩
  · intro r _ hblank
    unfold canonicalRowParse
    rw [if_pos hblank]
  · intro r hr h0 h2 h3
    have hsome : canonicalRowParse r = some
        { date := cellStr r 0 ""
          week := if pstrip (r.getD 1 "") = "" then iso_week_of (cellStr r 0 "")
                  else (pyInt? (r.getD 1 "")).getD (iso_week_of (cellStr r 0 ""))
          name := cellStr r 2 ""
          type := cellStr r 3 ""
          count := (pyInt? (cellStr r 4 "0")).getD 0 } := by
      unfold canonicalRowParse
      rw [if_neg (by push_neg; exact ⟨h0, h2, h3⟩)]
    refine ⟨_, hsome, ?_, rfl, ?_⟩
    · rw [parse_records_canonical]
      exact List.mem_filterMap.mpr ⟨r, hr, hsome⟩
    · intro hblank
      dsimp only
      rw [if_pos hblank]

/-- C9 witness: the spec's own incomplete-row test: a stored row with a
blank name is excluded while the complete sibling row appears. -/
theorem C9_load_row_semantics_witness :
    parse_records (RECORDS_HEADER ::
        [["2025-01-11", "2", "", "new", "4"], ["2025-01-10", "2", "Aki", "new", "3"]])
      = [⟨"2025-01-10", 2, "Aki", "new", 3⟩] := by
  rw [(C9_load_row_semantics
    [["2025-01-11", "2", "", "new", "4"], ["2025-01-10", "2", "Aki", "new", "3"]]).1]
  decide

/-- C6 counterexample: backend and fallback store are observably
different for a record with a blank name: a healthy-backend insert of
`("2025-01-10", "", "new", 3)` followed by a load yields `[]` (the read
path drops rows with blank key fields), while the same sequence against
the local fallback store returns the record. -/
theorem C6_counterexample :
    load_all_records .ok (runInserts .ok [("2025-01-10", "", "new", 3)] emptyState) = []
    ∧ load_all_records .unavailable
        (runInserts .unavailable [("2025-01-10", "", "new", 3)] emptyState)
      = [⟨"2025-01-10", 2, "", "new", 3⟩]
    ∧ ([] : List Rec) ≠ [⟨"2025-01-10", 2, "", "new", 3⟩] := by
  refine ⟨by decide, by decide, by decide⟩

/-- C6 amended: for insert sequences whose keys are strip-fixed and
non-blank and target sequences whose keys are strip-fixed, the local
fallback store refines the backend: a run against the healthy backend
followed by a read observes exactly what the same run against the
fallback store observes, starting from the empty provisioned state. -/
theorem C6_fallback_refinement :
    ∀ (ops : List InsertOp) (tops : List TargetOp) (m cat : String),
      (∀ p ∈ ops, goodInsertOp p) →
      (∀ p ∈ tops, goodTargetOp p) →
      load_all_records .ok (runInserts .ok ops emptyState)
        = load_all_records .unavailable (runInserts .unavailable ops emptyState)
      ∧ get_target .ok (runSetTargets .ok tops emptyState) m cat
        = get_target .unavailable (runSetTargets .unavailable tops emptyState) m cat := by
  intro ops tops m cat hops htops
  constructor
  · have hok : runInserts .ok ops emptyState
        = ⟨RECORDS_HEADER :: (runLocalInserts ops []).map recToRow,
           [TARGETS_HEADER], [], []⟩ :=
      runInserts_ok ops [] [TARGETS_HEADER] [] [] hops
        (fun r hr => absurd hr (List.not_mem_nil r))
    rw [hok, runInserts_unavailable ops emptyState]
    show parse_records (RECORDS_HEADER :: (runLocalInserts ops []).map recToRow)
        = runLocalInserts ops ([] : List Rec)
    exact parse_records_map _
      (runLocalInserts_preserves ops [] hops (fun r hr => absurd hr (List.not_mem_nil r)))
  · have hok : runSetTargets .ok tops emptyState
        = ⟨[RECORDS_HEADER], TARGETS_HEADER :: (runLocalTargets tops []).map tgtToRow,
           [], []⟩ :=
      runSetTargets_ok tops [] [RECORDS_HEADER] [] [] htops
        (fun e he => absurd he (List.not_mem_nil e))
    rw [hok, runSetTargets_unavailable tops emptyState]
    show get_target_backend (TARGETS_HEADER :: (runLocalTargets tops []).map tgtToRow) m cat
        = get_target_local (runLocalTargets tops ([] : LocalTargets)) m cat
    exact get_backend_eq _ m cat
      (runLocalTargets_preserves tops [] htops (fun e he => absurd he (List.not_mem_nil e)))

/-- C6 witness: the refinement at a concrete two-insert sequence and a
concrete two-write target sequence. -/
theorem C6_fallback_refinement_witness :
    load_all_records .ok (runInserts .ok
        [("2025-01-10", "Aki", "new", 3), ("2025-01-10", "Aki", "new", 2)] emptyState)
      = load_all_records .unavailable (runInserts .unavailable
        [("2025-01-10", "Aki", "new", 3), ("2025-01-10", "Aki", "new", 2)] emptyState)
    ∧ get_target .ok (runSetTargets .ok
        [("2025-01", "app", 10), ("2025-01", "app", 25)] emptyState) "2025-01" "app"
      = get_target .unavailable (runSetTargets .unavailable
        [("2025-01", "app", 10), ("2025-01", "app", 25)] emptyState) "2025-01" "app" :=
  C6_fallback_refinement
    [("2025-01-10", "Aki", "new", 3), ("2025-01-10", "Aki", "new", 2)]
    [("2025-01", "app", 10), ("2025-01", "app", 25)] "2025-01" "app"
    (by decide) (by decide)

/-- The count value `insert_or_update_record` reads from the found row
before adding: Python-indexed cell fetch, integer parse, 0 on failure. -/
def scannedOldCount (r : List String) (i : Int) : Int :=
  match pyGet? r i with
  | none => 0
  | some s => (pyInt? s).getD 0

/-- C10: when the backend branch of `insert_or_update_record` finds a row
matching the key and the header has a `count` column, it rewrites only
that row — every other row, and the header row, survive unchanged and no
row is appended — and within that row it writes only the `count` cell
(the parsed old count plus the increment) and, exactly when the header
has a `week` column, the `week` cell; every other cell of the row keeps
its value. -/
theorem C10_update_frame :
    ∀ (hdr : List String) (rows : List (List String)) (d n t : String) (c w : Int) (j : Nat),
      "count" ∈ hdr →
      rows.findIdx? (rowMatchesKey (idxOf hdr "date") (idxOf hdr "name") (idxOf hdr "type")
        d n t) = some j →
      ∃ newRow : List String,
        insert_or_update_record_backend (hdr :: rows) d n t c w
          = some (hdr :: rows.set j newRow)
        ∧ (rows.set j newRow).length = rows.length
        ∧ (∀ k, k ≠ j → (rows.set j newRow).getD k [] = rows.getD k [])
        ∧ newRow.getD (hdr.indexOf "count") ""
            = intToCell (scannedOldCount (rows.getD j []) (idxOf hdr "count") + c)
        ∧ ("week" ∈ hdr → newRow.getD (hdr.indexOf "week") "" = intToCell w)
        ∧ (∀ i, i ≠ hdr.indexOf "count" →
            ¬("week" ∈ hdr ∧ i = hdr.indexOf "week") →
            newRow.getD i "" = (rows.getD j []).getD i "") := by
  intro hdr rows d n t c w j hcnt hfind
  have hj : j < rows.length := findIdx?_some_bound hfind
  have hcn : (idxOf hdr "count").toNat = hdr.indexOf "count" := idxOf_toNat hdr "count" hcnt
  unfold insert_or_update_record_backend
  simp only [List.headD_cons, List.drop_succ_cons, List.drop_zero]
  rw [hfind]
  dsimp only
  rw [if_pos (idxOf_nonneg_of_mem hdr "count" hcnt)]
  by_cases hw : "week" ∈ hdr
  · have hwn : (idxOf hdr "week").toNat = hdr.indexOf "week" := idxOf_toNat hdr "week" hw
    have hne : hdr.indexOf "week" ≠ hdr.indexOf "count" :=
      indexOf_ne_of_mem_ne hdr "week" "count" hw hcnt (by decide)
    rw [if_pos (idxOf_nonneg_of_mem hdr "week" hw)]
    rw [updateCell_cons, updateCell_cons]
    rw [getD_set_self rows j _ [] hj, List.set_set]
    rw [hcn, hwn]
    have hcnsub : hdr.indexOf "count" + 1 - 1 = hdr.indexOf "count" := by omega
    have hwnsub : hdr.indexOf "week" + 1 - 1 = hdr.indexOf "week" := by omega
    rw [hcnsub, hwnsub]
    refine ⟨_, rfl, List.length_set rows j _ ▸ rfl, ?_, ?_, ?_, ?_⟩
    · intro k hk
      exact getD_set_ne rows j k _ [] (Ne.symm hk)
    · rw [getD_set_ne _ _ _ _ _ hne, getD_padTo,
        getD_set_self _ _ _ _ (by rw [padTo_length]; omega)]
      rfl
    · intro _
      rw [getD_set_self _ _ _ _ (by rw [padTo_length]; omega)]
    · intro i hic hiw
      have hiw2 : hdr.indexOf "week" ≠ i := by
        intro hcontra
        exact hiw ⟨hw, hcontra.symm⟩
      rw [getD_set_ne _ _ _ _ _ hiw2, getD_padTo,
        getD_set_ne _ _ _ _ _ (Ne.symm hic), getD_padTo]
  · rw [idxOf_of_not_mem hdr "week" hw]
    rw [if_neg (by norm_num)]
    rw [updateCell_cons]
    rw [hcn]
    have hcnsub : hdr.indexOf "count" + 1 - 1 = hdr.indexOf "count" := by omega
    rw [hcnsub]
    refine ⟨_, rfl, List.length_set rows j _ ▸ rfl, ?_, ?_, ?_, ?_⟩
    · intro k hk
      exact getD_set_ne rows j k _ [] (Ne.symm hk)
    · rw [getD_set_self _ _ _ _ (by rw [padTo_length]; omega)]
      rfl
    · intro hcontra
      exact absurd hcontra hw
    · intro i hic _
      rw [getD_set_ne _ _ _ _ _ (Ne.symm hic), getD_padTo]

/-- C10 witness: a concrete two-row table with the canonical header — the
first row matches the key, only it is rewritten (the sibling row that
shares two of the three key fields survives in place), its count cell
becomes the string of 1 + 4 = 5, its week cell is refreshed, and its key
cells are untouched. -/
theorem C10_update_frame_witness :
    ∃ newRow : List String,
      insert_or_update_record_backend
          [RECORDS_HEADER,
           ["2025-01-10", "2", "Aki", "new", "1"],
           ["2025-01-10", "2", "Aki", "exist", "7"]] "2025-01-10" "Aki" "new" 4 2
        = some (RECORDS_HEADER ::
            [["2025-01-10", "2", "Aki", "new", "1"],
             ["2025-01-10", "2", "Aki", "exist", "7"]].set 0 newRow)
      ∧ newRow.getD 4 "" = "5"
      ∧ newRow.getD 1 "" = "2"
      ∧ newRow.getD 0 "" = "2025-01-10"
      ∧ newRow.getD 3 "" = "new" := by
  obtain ⟨newRow, heq, -, -, hcount, hweek, hframe⟩ :=
    C10_update_frame RECORDS_HEADER
      [["2025-01-10", "2", "Aki", "new", "1"], ["2025-01-10", "2", "Aki", "exist", "7"]]
      "2025-01-10" "Aki" "new" 4 2 0 (by decide) (by decide)
  refine ⟨newRow, heq, ?_, ?_, ?_, ?_⟩
  · have e : List.indexOf "count" RECORDS_HEADER = 4 := by decide
    rw [e] at hcount
    rw [hcount]
    decide
  · have e : List.indexOf "week" RECORDS_HEADER = 1 := by decide
    have h1 := hweek (by decide)
    rw [e] at h1
    rw [h1]
    decide
  · have h0 := hframe 0 (by decide) (by decide)
    rw [h0]
    decide
  · have h3 := hframe 3 (by decide) (by decide)
    rw [h3]
    decide

end AndstWomen
